import Mathlib

/-!
# Verification of the macdl download engine against its specification

Shallow embedding of the core of `macdl` (an async HTTP download manager):
the segment planner, the strategy selection, the plugin registry, the
streaming download loop and the segment fetcher, translated from
`src/macdl/core/downloader.py`, `src/macdl/core/models.py`,
`src/macdl/core/progress.py`, `src/macdl/plugins/registry.py`,
`src/macdl/plugins/base.py` and the builtin plugins.

Conventions of the embedding:
* Python ints are `Nat` where the source only ever holds non-negative
  values, and `Int` where the source can produce negative values
  (a segment `end` can be `-1` when `total_size // num_segments == 0`).
* The file system is a map from path strings to optional byte lists;
  bytes are abstracted as `Nat`.
* The event loop / aiohttp are replaced by an oracle giving, for each GET
  attempt, either a transport failure or a status plus a streamed body.
* Asynchronous gathering of segment tasks is modelled as sequential
  execution in segment-id order; this preserves every per-request and
  per-file observation the claims are about.
-/

namespace Macdl

/-- `DownloadStatus` from `models.py`. -/
inductive DownloadStatus
  | pending
  | extracting
  | downloading
  | paused
  | completed
  | failed
  | cancelled
deriving DecidableEq, Repr

/-- A download segment, from `models.py` (`Segment`).  The Python field
`end` is a Lean keyword; it is called `stop` here.  `start` and `stop`
are `Int` because `_create_segments` computes `start + segment_size - 1`,
which is `-1` when `segment_size == 0`. -/
structure Segment where
  id : Nat
  start : Int
  stop : Int
deriving DecidableEq, Repr

/-- `Segment.size` property from `models.py`: `end - start + 1`. -/
def Segment.size (s : Segment) : Int := s.stop - s.start + 1

/-- `Downloader._create_segments` from `downloader.py`:
`segment_size = total_size // num_segments`; segment `i` starts at
`i * segment_size`; the last segment ends at `total_size - 1`, every
other one at `start + segment_size - 1`. -/
def createSegments (total_size : Nat) (num_segments : Nat) : List Segment :=
  let segment_size := total_size / num_segments
  (List.range num_segments).map fun i =>
    { id := i
      start := (i * segment_size : Nat)
      stop := if i = num_segments - 1 then (total_size : Int) - 1
              else ((i * segment_size + segment_size : Nat) : Int) - 1 }

/-- `DownloadInfo` from `models.py`, restricted to the fields the engine
reads when choosing a strategy and fetching. -/
structure DownloadInfo where
  size : Option Nat := none
  resume_supported : Bool := false
deriving DecidableEq, Repr

/-- Truthiness of Python's `Optional[int]`: `None` and `0` are falsy. -/
def optTruthy : Option Nat → Bool
  | none => false
  | some k => k != 0

/-- The strategy test from `Downloader.download`:
`info.size and info.resume_supported and info.size > chunk_size and
job.num_threads > 1`. -/
def chooseSegmented (info : DownloadInfo) (chunk_size num_threads : Nat) : Bool :=
  match info.size with
  | none => false
  | some s =>
      decide (s ≠ 0) && info.resume_supported &&
        decide (chunk_size < s) && decide (1 < num_threads)

/-- The two download strategies of `Downloader.download`. -/
inductive Strategy
  | segmented
  | streaming
deriving DecidableEq, Repr

/-- Strategy selection in `Downloader.download`: segmented when the test
passes, otherwise the simple streaming download. -/
def chooseStrategy (info : DownloadInfo) (chunk_size num_threads : Nat) : Strategy :=
  if chooseSegmented info chunk_size num_threads then .segmented else .streaming

/-! ## Plugin registry (`plugins/registry.py`, `plugins/base.py`,
`plugins/http_plugin.py`, `plugins/gofile.py`, `plugins/bunkr.py`)

URL matching works on `List Char` so that the Python string operations
(`startswith`, `in`, `re.search` of the concrete builtin patterns) have
direct executable counterparts. -/

/-- Python `needle in hay` (substring containment). -/
def strContains (hay needle : List Char) : Bool :=
  needle.isPrefixOf hay ||
    match hay with
    | [] => false
    | _ :: t => strContains t needle

/-- Lowercase ASCII letter, as in the character class `[a-z]`. -/
def isLowerAZ (c : Char) : Bool := decide ('a' ≤ c) && decide (c ≤ 'z')

/-- Alphanumeric ASCII, as in the character class `[a-zA-Z0-9]`. -/
def isAlnumAZ (c : Char) : Bool :=
  isLowerAZ c || (decide ('A' ≤ c) && decide (c ≤ 'Z')) ||
    (decide ('0' ≤ c) && decide (c ≤ '9'))

/-- Match of the gofile pattern `gofile\.io/d/([a-zA-Z0-9]+)` at the head
of the text: the literal `gofile.io/d/` followed by one alphanumeric. -/
def gofileMatchAt (s : List Char) : Bool :=
  "gofile.io/d/".toList.isPrefixOf s &&
    match s.drop 12 with
    | c :: _ => isAlnumAZ c
    | [] => false

/-- `re.search` of the gofile pattern: a match at some position. -/
def gofileSearch (s : List Char) : Bool :=
  gofileMatchAt s ||
    match s with
    | [] => false
    | _ :: t => gofileSearch t

/-- After the literal `bunkr.`: one or more `[a-z]`, then `/k/` for the
pattern kind `k`, then one alphanumeric (the bunkr patterns
`bunkr\.[a-z]+/a/([a-zA-Z0-9]+)` and the `v`, `i`, `f` variants). -/
def bunkrTail (kind : Char) : List Char → Bool
  | [] => false
  | c :: t =>
      isLowerAZ c &&
        ((match t with
          | '/' :: k :: '/' :: d :: _ => decide (k = kind) && isAlnumAZ d
          | _ => false) ||
          bunkrTail kind t)

/-- Match of a bunkr pattern at the head of the text. -/
def bunkrMatchAt (kind : Char) (s : List Char) : Bool :=
  "bunkr.".toList.isPrefixOf s && bunkrTail kind (s.drop 6)

/-- `re.search` of a bunkr pattern. -/
def bunkrSearch (kind : Char) (s : List Char) : Bool :=
  bunkrMatchAt kind s ||
    match s with
    | [] => false
    | _ :: t => bunkrSearch kind t

/-- `BasePlugin.can_handle`: any declared domain contained in the URL
wins; otherwise any pattern that matches wins; otherwise `False`. -/
def baseCanHandle (domains : List (List Char)) (patterns : List (List Char → Bool))
    (url : List Char) : Bool :=
  (!domains.isEmpty && domains.any fun d => strContains url d) ||
    patterns.any fun p => p url

/-- A registered plugin: its name and its `can_handle` predicate. -/
structure RegPlugin where
  name : String
  canHandle : List Char → Bool

/-- `HTTPPlugin.can_handle`: `url.startswith("http://") or
url.startswith("https://")`. -/
def httpCanHandle (url : List Char) : Bool :=
  "http://".toList.isPrefixOf url || "https://".toList.isPrefixOf url

/-- The generic HTTP plugin (`http_plugin.py`). -/
def httpPlugin : RegPlugin := ⟨"http", httpCanHandle⟩

/-- `GoFilePlugin.can_handle` (inherited from `BasePlugin`):
`domains = ["gofile.io"]`, one URL pattern. -/
def gofileCanHandle (url : List Char) : Bool :=
  baseCanHandle ["gofile.io".toList] [gofileSearch] url

/-- The gofile plugin (`gofile.py`). -/
def gofilePlugin : RegPlugin := ⟨"gofile", gofileCanHandle⟩

/-- `BunkrPlugin.can_handle` (inherited from `BasePlugin`): the eight
bunkr domains and the four album/video/image/file patterns. -/
def bunkrCanHandle (url : List Char) : Bool :=
  baseCanHandle
    ["bunkr.su".toList, "bunkr.si".toList, "bunkr.is".toList, "bunkrr.su".toList,
      "bunkr.la".toList, "bunkr.ru".toList, "bunkr.ac".toList, "bunkr.ws".toList]
    [bunkrSearch 'a', bunkrSearch 'v', bunkrSearch 'i', bunkrSearch 'f'] url

/-- The bunkr plugin (`bunkr.py`). -/
def bunkrPlugin : RegPlugin := ⟨"bunkr", bunkrCanHandle⟩

/-- `_load_builtin_plugins` registration order: `HTTPPlugin` first, then
`GoFilePlugin`, then `BunkrPlugin` (Python dicts iterate in insertion
order). -/
def builtinPlugins : List RegPlugin := [httpPlugin, gofilePlugin, bunkrPlugin]

/-- `PluginRegistry.get_plugin_for_url`: the first registered plugin
whose `can_handle` accepts the URL. -/
def getPluginForUrl (plugins : List RegPlugin) (url : List Char) : Option RegPlugin :=
  plugins.find? fun p => p.canHandle url

/-! ## The download engine (`downloader.py`)

The aiohttp session is replaced by an oracle assigning to every GET
attempt either a transport-level failure (`aiohttp.ClientError` /
`asyncio.TimeoutError` before any body byte) or a response: a status and
a streamed body that delivers byte chunks and may end in a mid-stream
network error. -/

/-- One event of a streamed response body. -/
inductive StreamEvent
  | chunk (data : List Nat)
  | netErr
deriving DecidableEq, Repr

/-- Outcome of issuing one GET. -/
inductive GetResult
  | failure
  | response (status : Nat) (events : List StreamEvent)
deriving DecidableEq, Repr

/-- The local file system: path to optional byte content. -/
def FileSystem : Type := String → Option (List Nat)

/-- Overwrite one path. -/
def FileSystem.write (fs : FileSystem) (path : String) (content : List Nat) : FileSystem :=
  fun p => if p = path then some content else fs p

/-- The error causes the engine can raise (kinds of the exceptions in
`exceptions.py` and of `aiohttp` errors as the engine distinguishes
them). -/
inductive FailCause
  | transport
  | tooManyRequests
  | httpStatus (code : Nat)
  | sizeUnknown
deriving DecidableEq, Repr

/-- Observable state threaded through `Downloader._download_simple`:
the file system, the mutable `start_byte`, the current `Range` request
header (`some n` stands for `bytes=n-`), `job.downloaded_size`, and the
logs of every `tracker.update` value, every issued GET (with its `Range`
start) and every backoff sleep (in seconds, `2 ** attempt`). -/
structure SimpleState where
  fs : FileSystem
  startByte : Nat
  rangeHeader : Option Nat
  downloaded : Nat
  trace : List Nat
  gets : List (Option Nat)
  sleeps : List Nat

/-- Final outcome of `_download_simple`. -/
inductive SimpleOutcome
  | alreadyComplete
  | ok
  | failed (cause : FailCause)
deriving DecidableEq, Repr

/-- The body loop `async for chunk in response.content.iter_chunked(...)`
over the opened file: append each chunk, bump `job.downloaded_size`,
call `tracker.update`.  Returns `false` when the stream dies with a
network error (caught by the retry handler). -/
def processBody (out : String) : List StreamEvent → SimpleState → SimpleState × Bool
  | [], st => (st, true)
  | .netErr :: _, st => (st, false)
  | .chunk data :: rest, st =>
      processBody out rest
        { st with
          fs := st.fs.write out ((st.fs out).getD [] ++ data)
          downloaded := st.downloaded + data.length
          trace := st.trace ++ [st.downloaded + data.length] }

/-- The retry loop of `_download_simple` (`for attempt in
range(max_retries + 1)`).  `remaining` is the list of attempt indices
still to run, so Python's `attempt < max_retries` test is `rest ≠ []`
(the two coincide on the actual call with `List.range (max_retries+1)`).
Branches, in source order: HTTP 429 backoff; the reset to zero when a
ranged request is not answered with 206; `raise_for_status` (an
`aiohttp.ClientError`, hence caught by the retry handler); the body
loop; the `except` handler that re-reads the file size into the `Range`
header, sleeps `2 ** attempt` and retries, or gives up after the last
attempt. -/
def simpleLoop (oracle : Nat → GetResult) (out : String) :
    List Nat → SimpleState → SimpleState × SimpleOutcome
  | [], st => (st, .failed .transport)
  | attempt :: rest, st₀ =>
      let st := { st₀ with gets := st₀.gets ++ [st₀.rangeHeader] }
      match oracle attempt with
      | .failure =>
          match rest with
          | [] => (st, .failed .transport)
          | _ :: _ =>
              let sb := ((st.fs out).getD []).length
              simpleLoop oracle out rest
                { st with startByte := sb, rangeHeader := some sb,
                          sleeps := st.sleeps ++ [2 ^ attempt] }
      | .response status events =>
          if status = 429 then
            match rest with
            | [] => (st, .failed .tooManyRequests)
            | _ :: _ =>
                simpleLoop oracle out rest { st with sleeps := st.sleeps ++ [2 ^ attempt] }
          else
            let st₁ :=
              if 0 < st.startByte ∧ status ≠ 206 then
                { st with startByte := 0, downloaded := 0, trace := st.trace ++ [0] }
              else st
            if 400 ≤ status then
              match rest with
              | [] => (st₁, .failed (.httpStatus status))
              | _ :: _ =>
                  let sb := ((st₁.fs out).getD []).length
                  simpleLoop oracle out rest
                    { st₁ with startByte := sb, rangeHeader := some sb,
                               sleeps := st₁.sleeps ++ [2 ^ attempt] }
            else
              -- mode = "ab" only when a pending range was answered 206;
              -- opening with "wb" truncates, with "ab" keeps the bytes
              let st₂ :=
                { st₁ with
                  fs := st₁.fs.write out
                    (if 0 < st.startByte ∧ status = 206 then (st₁.fs out).getD [] else []) }
              match processBody out events st₂ with
              | (st₃, true) => (st₃, .ok)
              | (st₃, false) =>
                  match rest with
                  | [] => (st₃, .failed .transport)
                  | _ :: _ =>
                      let sb := ((st₃.fs out).getD []).length
                      simpleLoop oracle out rest
                        { st₃ with startByte := sb, rangeHeader := some sb,
                                   sleeps := st₃.sleeps ++ [2 ^ attempt] }

/-- `Downloader._download_simple`: the resume pre-check against the
existing file (early return when already at least `info.size` bytes are
present), the tracker seeding, then the retry loop. -/
def downloadSimple (oracle : Nat → GetResult) (max_retries : Nat)
    (size : Option Nat) (resume_supported : Bool)
    (out : String) (fs : FileSystem) : SimpleState × SimpleOutcome :=
  let sb0 : Nat :=
    match fs out with
    | some c => if resume_supported then c.length else 0
    | none => 0
  if 0 < sb0 then
    if optTruthy size && decide (size.getD 0 ≤ sb0) then
      ({ fs := fs, startByte := sb0, rangeHeader := none, downloaded := sb0,
         trace := [], gets := [], sleeps := [] }, .alreadyComplete)
    else
      simpleLoop oracle out (List.range (max_retries + 1))
        { fs := fs, startByte := sb0, rangeHeader := some sb0, downloaded := sb0,
          trace := [sb0], gets := [], sleeps := [] }
  else
    simpleLoop oracle out (List.range (max_retries + 1))
      { fs := fs, startByte := 0, rangeHeader := none, downloaded := 0,
        trace := [], gets := [], sleeps := [] }

/-! ## Segment fetcher (`Downloader._download_segment`)

One fetcher per segment; the staging file lives in a fresh temp
directory, so it is kept apart from the `FileSystem` of output paths.
`base` is the sum of the bytes other segments have already contributed
to `job.downloaded_size`, so `tracker.update(job.downloaded_size)`
records `base + downloaded`. -/

/-- Observable state of one segment fetcher. -/
structure SegmentState where
  tempFile : Option (List Nat)
  downloaded : Nat
  trace : List Nat
  gets : List (Nat × Int)
  sleeps : List Nat
  completed : Bool

/-- The body loop of `_download_segment`. -/
def segBody (base : Nat) : List StreamEvent → SegmentState → SegmentState × Bool
  | [], st => (st, true)
  | .netErr :: _, st => (st, false)
  | .chunk data :: rest, st =>
      segBody base rest
        { st with
          tempFile := some ((st.tempFile.getD []) ++ data)
          downloaded := st.downloaded + data.length
          trace := st.trace ++ [base + (st.downloaded + data.length)] }

/-- The retry loop of `_download_segment`: recompute the `Range`
header `bytes={start+downloaded}-{end}` each attempt; 429 backs off and
retries; any other status outside `{200, 206}` raises `DownloadError`
immediately (it is not an `aiohttp.ClientError`, so the `except` clause
does not catch it); otherwise append the body to the staging file;
transport errors back off and retry until attempts run out. -/
def segLoop (oracle : Nat → GetResult) (base : Nat) (start : Nat) (stop : Int) :
    List Nat → SegmentState → SegmentState × Option FailCause
  | [], st => (st, some .transport)
  | attempt :: rest, st₀ =>
      let st := { st₀ with gets := st₀.gets ++ [(start + st₀.downloaded, stop)] }
      match oracle attempt with
      | .failure =>
          match rest with
          | [] => (st, some .transport)
          | _ :: _ =>
              segLoop oracle base start stop rest { st with sleeps := st.sleeps ++ [2 ^ attempt] }
      | .response status events =>
          if status = 429 then
            match rest with
            | [] => (st, some .tooManyRequests)
            | _ :: _ =>
                segLoop oracle base start stop rest { st with sleeps := st.sleeps ++ [2 ^ attempt] }
          else
            if status ≠ 200 ∧ status ≠ 206 then
              (st, some (.httpStatus status))
            else
              let st₁ :=
                { st with tempFile := some (if 0 < st.downloaded then st.tempFile.getD [] else []) }
              match segBody base events st₁ with
              | (st₂, true) => ({ st₂ with completed := true }, none)
              | (st₂, false) =>
                  match rest with
                  | [] => (st₂, some .transport)
                  | _ :: _ =>
                      segLoop oracle base start stop rest
                        { st₂ with sleeps := st₂.sleeps ++ [2 ^ attempt] }

/-- `Downloader._download_segment` applied to one segment, starting with
an empty staging file and `downloaded = 0`. -/
def downloadSegment (oracle : Nat → GetResult) (max_retries : Nat) (base : Nat)
    (start : Nat) (stop : Int) : SegmentState × Option FailCause :=
  segLoop oracle base start stop (List.range (max_retries + 1))
    { tempFile := none, downloaded := 0, trace := [], gets := [], sleeps := [],
      completed := false }

/-! ## Segmented path and the top-level `download` -/

/-- Run the segment fetchers of `_download_segmented` in segment-id
order (the sequentialisation of `asyncio.gather`), stopping at the first
fetcher that raises. -/
def runSegments (oracle : Nat → Nat → GetResult) (max_retries : Nat) (base : Nat) :
    List Segment → List SegmentState × Option FailCause
  | [] => ([], none)
  | seg :: rest =>
      match downloadSegment (oracle seg.id) max_retries base seg.start.toNat seg.stop with
      | (st, none) =>
          match runSegments oracle max_retries (base + st.downloaded) rest with
          | (sts, e) => (st :: sts, e)
      | (st, some c) => ([st], some c)

/-- `Downloader._merge_segments`: concatenate the staging files in
ascending segment id (the run order) into the output path; a missing
staging file contributes nothing. -/
def mergeSegments (fs : FileSystem) (out : String) (sts : List SegmentState) : FileSystem :=
  fs.write out ((sts.map fun st => st.tempFile.getD []).foldr (· ++ ·) [])

/-- The `finally` cleanup of `_download_segmented`: unlink every staging
file. -/
def cleanupSegments (sts : List SegmentState) : List SegmentState :=
  sts.map fun st => { st with tempFile := none }

/-- `Downloader._download_segmented`: fail with `FileSizeError` when the
size is unknown, otherwise plan segments, fetch them, merge on success,
and clean staging on every exit path. -/
def downloadSegmented (oracle : Nat → Nat → GetResult) (max_retries : Nat)
    (size : Option Nat) (num_threads : Nat) (out : String) (fs : FileSystem) :
    List SegmentState × FileSystem × Option FailCause :=
  match size with
  | none => ([], fs, some .sizeUnknown)
  | some total =>
      match runSegments oracle max_retries 0 (createSegments total num_threads) with
      | (sts, none) => (cleanupSegments sts, mergeSegments fs out sts, none)
      | (sts, some c) => (cleanupSegments sts, fs, some c)

/-- The caller-visible fields of the final `DownloadJob`. -/
structure JobFinal where
  status : DownloadStatus
  error_message : Option FailCause
  downloaded_size : Nat
deriving DecidableEq, Repr

/-- Which path ran, with its observable state. -/
inductive PathRun
  | simple (st : SimpleState)
  | segmented (sts : List SegmentState)

/-- Result of one engine invocation: the final job value, the exception
re-raised to the caller (if any), the file system afterwards, and the
path observations. -/
structure DownloadResult where
  job : JobFinal
  raised : Option FailCause
  fs : FileSystem
  run : PathRun

/-- Number of GETs issued during the run. -/
def PathRun.getCount : PathRun → Nat
  | .simple st => st.gets.length
  | .segmented sts => (sts.map fun st => st.gets.length).sum

/-- `Downloader.download` after the HEAD: choose the strategy, run it,
and translate the `try`/`except`: on success the job becomes
`COMPLETED`; on an exception the job becomes `FAILED` with
`error_message` set and the exception is re-raised (so the job value is
not returned to the caller). -/
def download (oracle : Nat → Nat → GetResult) (max_retries chunk_size : Nat)
    (info : DownloadInfo) (num_threads : Nat) (out : String) (fs : FileSystem) :
    DownloadResult :=
  if chooseSegmented info chunk_size num_threads then
    match downloadSegmented oracle max_retries info.size num_threads out fs with
    | (sts, fs1, none) =>
        ⟨⟨.completed, none, (sts.map SegmentState.downloaded).sum⟩, none, fs1, .segmented sts⟩
    | (sts, fs1, some c) =>
        ⟨⟨.failed, some c, (sts.map SegmentState.downloaded).sum⟩, some c, fs1, .segmented sts⟩
  else
    match downloadSimple (oracle 0) max_retries info.size info.resume_supported out fs with
    | (st, .failed c) => ⟨⟨.failed, some c, st.downloaded⟩, some c, st.fs, .simple st⟩
    | (st, _) => ⟨⟨.completed, none, st.downloaded⟩, none, st.fs, .simple st⟩

/-- What the caller of `Downloader.download` receives: the job value on
normal return, the exception otherwise. -/
def callerView (r : DownloadResult) : Except FailCause JobFinal :=
  match r.raised with
  | some e => .error e
  | none => .ok r.job

/-! ## Derived observations used by the claims -/

/-- The bytes a streamed body delivers before its first network error. -/
def chunksJoined : List StreamEvent → List Nat
  | [] => []
  | .chunk d :: r => d ++ chunksJoined r
  | .netErr :: _ => []

/-- A streamed body that completes without a network error. -/
def noNetErr : List StreamEvent → Bool
  | [] => true
  | .chunk _ :: r => noNetErr r
  | .netErr :: _ => false

/-- Whether the caller got a job value back (rather than an exception). -/
def isDelivered : Except FailCause JobFinal → Bool
  | .ok _ => true
  | .error _ => false

/-! ## Claim-level specification predicates -/

/-- Invariant of the streaming state used for the progress-monotonicity
claim: the `tracker.update` trace only ever moves up or resets to `0`,
and its last entry is the current `job.downloaded_size`. -/
def traceInv (st : SimpleState) : Prop :=
  st.trace.Chain' (fun a b => a ≤ b ∨ b = 0)
  ∧ (st.trace = [] ∨ st.trace.getLast? = some st.downloaded)

/-- Invariant of the segment-fetcher state: the trace is non-decreasing
and ends at `base + downloaded`. -/
def segTraceInv (base : Nat) (st : SegmentState) : Prop :=
  st.trace.Chain' (· ≤ ·)
  ∧ (st.trace = [] ∨ st.trace.getLast? = some (base + st.downloaded))

/-- Relation between two observable streaming states reachable from one
another: the logs only grow, only the output path changes on disk, the
output file is never deleted, and the tracker-trace invariant carries
over. -/
def SRel (out : String) (st st' : SimpleState) : Prop :=
  (∃ t, st'.trace = st.trace ++ t)
  ∧ (∃ g, st'.gets = st.gets ++ g)
  ∧ (∃ sl, st'.sleeps = st.sleeps ++ sl)
  ∧ (∀ p, p ≠ out → st'.fs p = st.fs p)
  ∧ (st'.fs out = none → st.fs out = none)
  ∧ (traceInv st → traceInv st')

/-- A run of the streaming path whose first GET carries
`Range: bytes=N-` and whose first tracker update is `N`. -/
def resumeHead (oracle : Nat → GetResult) (max_retries : Nat) (size : Option Nat)
    (out : String) (fs : FileSystem) (N : Nat) : Prop :=
  (downloadSimple oracle max_retries size true out fs).1.gets.head? = some (some N)
  ∧ (downloadSimple oracle max_retries size true out fs).1.trace.head? = some N

/-- The resume behaviour of the streaming path claimed for a
pre-existing file `c` that is not yet complete: the first GET asks for
`bytes=c.length-`, the tracker is seeded with `c.length`, a `206` answer
appends the body to `c`, and a `200` answer resets the tracker to `0`
and truncates before writing. -/
def resumeSpec (oracle : Nat → GetResult) (max_retries : Nat) (size : Option Nat)
    (out : String) (fs : FileSystem) (c : List Nat) : Prop :=
  resumeHead oracle max_retries size out fs c.length
  ∧ (∀ ev, oracle 0 = .response 206 ev → noNetErr ev = true →
      (downloadSimple oracle max_retries size true out fs).2 = .ok
      ∧ (downloadSimple oracle max_retries size true out fs).1.fs out
          = some (c ++ chunksJoined ev)
      ∧ (downloadSimple oracle max_retries size true out fs).1.downloaded
          = c.length + (chunksJoined ev).length)
  ∧ (∀ ev, oracle 0 = .response 200 ev → noNetErr ev = true →
      (downloadSimple oracle max_retries size true out fs).2 = .ok
      ∧ (downloadSimple oracle max_retries size true out fs).1.fs out
          = some (chunksJoined ev)
      ∧ (downloadSimple oracle max_retries size true out fs).1.trace.take 2
          = [c.length, 0]
      ∧ (downloadSimple oracle max_retries size true out fs).1.downloaded
          = (chunksJoined ev).length)

/-- The segment-planner property of the claim: `n` segments; segment
`i < n-1` starts at `i*(total/n)` and ends `total/n - 1` later; the last
segment ends at `total - 1`; segments are pairwise non-overlapping,
cover `[0, total-1]`, and their sizes sum to `total`. -/
def plannerSpec (total n : Nat) : Prop :=
  (createSegments total n).length = n
  ∧ (∀ seg ∈ createSegments total n, seg.start = ((seg.id * (total / n) : Nat) : Int))
  ∧ (∀ seg ∈ createSegments total n, seg.id < n - 1 →
      seg.stop = seg.start + ((total / n : Nat) : Int) - 1)
  ∧ (∀ seg ∈ createSegments total n, seg.id = n - 1 → seg.stop = (total : Int) - 1)
  ∧ (∀ seg₁ ∈ createSegments total n, ∀ seg₂ ∈ createSegments total n,
      seg₁.id ≠ seg₂.id → ∀ b : Int,
        ¬(seg₁.start ≤ b ∧ b ≤ seg₁.stop ∧ seg₂.start ≤ b ∧ b ≤ seg₂.stop))
  ∧ (∀ b : Int, 0 ≤ b → b ≤ (total : Int) - 1 →
      ∃ seg ∈ createSegments total n, seg.start ≤ b ∧ b ≤ seg.stop)
  ∧ ((createSegments total n).map Segment.size).sum = (total : Int)

end Macdl

namespace Macdl

/-! ## Helper lemmas -/

/-- The planner as a map over `List.range`. -/
lemma createSegments_eq_map (total n : Nat) :
    createSegments total n = (List.range n).map fun i =>
      ⟨i, ((i * (total / n) : Nat) : Int),
        if i = n - 1 then (total : Int) - 1
        else ((i * (total / n) + total / n : Nat) : Int) - 1⟩ := rfl

/-- Membership in the planner's output. -/
lemma mem_createSegments {total n : Nat} {seg : Segment} :
    seg ∈ createSegments total n ↔ ∃ i, i < n ∧
      seg = ⟨i, ((i * (total / n) : Nat) : Int),
        if i = n - 1 then (total : Int) - 1
        else ((i * (total / n) + total / n : Nat) : Int) - 1⟩ := by
  rw [createSegments_eq_map]
  simp only [List.mem_map, List.mem_range]
  constructor
  · rintro ⟨i, hi, rfl⟩; exact ⟨i, hi, rfl⟩
  · rintro ⟨i, hi, rfl⟩; exact ⟨i, hi, rfl⟩

/-- Two planner segments with indices `i < j` share no byte position. -/
lemma segPair_disjoint (total n i j : Nat) (hj : j < n) (hij : i < j) (b : Int)
    (h1 : ((i * (total / n) : Nat) : Int) ≤ b)
    (h2 : b ≤ (if i = n - 1 then (total : Int) - 1
              else ((i * (total / n) + total / n : Nat) : Int) - 1))
    (h3 : ((j * (total / n) : Nat) : Int) ≤ b) : False := by
  rw [if_neg (by omega)] at h2
  have h5 : (i + 1) * (total / n) ≤ j * (total / n) :=
    Nat.mul_le_mul_right _ (by omega)
  rw [Nat.succ_mul] at h5
  omega

/-- Every byte position in `[0, total-1]` lies in some planner segment. -/
lemma planner_covers (total n : Nat) (hn : 1 ≤ n) (b : Int)
    (hb0 : 0 ≤ b) (hb1 : b ≤ (total : Int) - 1) :
    ∃ i, i < n ∧ ((i * (total / n) : Nat) : Int) ≤ b ∧
      b ≤ (if i = n - 1 then (total : Int) - 1
          else ((i * (total / n) + total / n : Nat) : Int) - 1) := by
  have hbn : ((b.toNat : Nat) : Int) = b := Int.toNat_of_nonneg hb0
  have hbtot : b.toNat < total := by omega
  by_cases hs0 : total / n = 0
  · refine ⟨n - 1, by omega, ?_, ?_⟩
    · simp [hs0]; omega
    · rw [if_pos rfl]; exact hb1
  · have hspos : 0 < total / n := Nat.pos_of_ne_zero hs0
    by_cases hq : b.toNat / (total / n) < n - 1
    · refine ⟨b.toNat / (total / n), by omega, ?_, ?_⟩
      · have h := Nat.div_mul_le_self b.toNat (total / n)
        omega
      · rw [if_neg (by omega)]
        have e := Nat.div_add_mod b.toNat (total / n)
        have hm := Nat.mod_lt b.toNat hspos
        rw [Nat.mul_comm] at e
        omega
    · refine ⟨n - 1, by omega, ?_, ?_⟩
      · have h1 : (n - 1) * (total / n) ≤ b.toNat / (total / n) * (total / n) :=
          Nat.mul_le_mul_right _ (by omega)
        have h2 := Nat.div_mul_le_self b.toNat (total / n)
        omega
      · rw [if_pos rfl]; exact hb1

/-- The planner's segment sizes sum to the total. -/
lemma planner_sum (total n : Nat) (hn : 1 ≤ n) :
    ((createSegments total n).map Segment.size).sum = (total : Int) := by
  obtain ⟨m, rfl⟩ : ∃ m, n = m + 1 := ⟨n - 1, by omega⟩
  rw [createSegments_eq_map, List.map_map]
  have hcongr : ∀ i ∈ List.range m,
      (Segment.size ∘ fun i =>
        (⟨i, ((i * (total / (m + 1)) : Nat) : Int),
          if i = m + 1 - 1 then (total : Int) - 1
          else ((i * (total / (m + 1)) + total / (m + 1) : Nat) : Int) - 1⟩ : Segment)) i
        = ((total / (m + 1) : Nat) : Int) := by
    intro i hi
    rw [List.mem_range] at hi
    simp only [Function.comp_apply, Segment.size]
    rw [if_neg (by omega)]
    push_cast
    ring
  rw [List.range_succ, List.map_append, List.sum_append,
      List.map_congr_left hcongr]
  simp only [List.map_singleton, List.sum_singleton, Function.comp_apply,
    Segment.size, if_pos (by omega : m = m + 1 - 1)]
  have hconst : (List.range m).map (fun _ => ((total / (m + 1) : Nat) : Int))
      = List.replicate m ((total / (m + 1) : Nat) : Int) := by
    rw [List.map_const']
    simp
  rw [hconst, List.sum_replicate]
  have hle : m * (total / (m + 1)) + total / (m + 1) ≤ total := by
    have h := Nat.div_mul_le_self total (m + 1)
    have : total / (m + 1) * (m + 1) = m * (total / (m + 1)) + total / (m + 1) := by ring
    omega
  push_cast
  rw [nsmul_eq_mul]
  push_cast
  omega

/-- `processBody` only appends to the tracker trace and leaves the GET
and sleep logs, `start_byte` and the `Range` header untouched. -/
lemma processBody_extends (out : String) (ev : List StreamEvent) :
    ∀ st : SimpleState, ∃ t,
      (processBody out ev st).1.trace = st.trace ++ t
      ∧ (processBody out ev st).1.gets = st.gets
      ∧ (processBody out ev st).1.sleeps = st.sleeps
      ∧ (processBody out ev st).1.startByte = st.startByte
      ∧ (processBody out ev st).1.rangeHeader = st.rangeHeader := by
  induction ev with
  | nil => intro st; exact ⟨[], by simp [processBody]⟩
  | cons e r ih =>
      intro st
      cases e with
      | netErr => exact ⟨[], by simp [processBody]⟩
      | chunk d =>
          obtain ⟨t, h1, h2, h3, h4, h5⟩ := ih
            { st with
              fs := st.fs.write out ((st.fs out).getD [] ++ d)
              downloaded := st.downloaded + d.length
              trace := st.trace ++ [st.downloaded + d.length] }
          refine ⟨(st.downloaded + d.length) :: t, ?_, ?_, ?_, ?_, ?_⟩
          · show (processBody out r _).1.trace = _
            rw [h1]; simp
          · show (processBody out r _).1.gets = _
            rw [h2]
          · show (processBody out r _).1.sleeps = _
            rw [h3]
          · show (processBody out r _).1.startByte = _
            rw [h4]
          · show (processBody out r _).1.rangeHeader = _
            rw [h5]

/-- `processBody` writes no path other than the output path. -/
lemma processBody_frame (out : String) (ev : List StreamEvent) :
    ∀ (st : SimpleState) (p : String), p ≠ out →
      (processBody out ev st).1.fs p = st.fs p := by
  induction ev with
  | nil => intro st p _; rfl
  | cons e r ih =>
      intro st p hp
      cases e with
      | netErr => rfl
      | chunk d =>
          show (processBody out r _).1.fs p = _
          rw [ih _ p hp]
          simp [FileSystem.write, hp]

/-- `processBody` never deletes the output file. -/
lemma processBody_not_deleted (out : String) (ev : List StreamEvent) :
    ∀ st : SimpleState, (processBody out ev st).1.fs out = none → st.fs out = none := by
  induction ev with
  | nil => intro st h; exact h
  | cons e r ih =>
      intro st h
      cases e with
      | netErr => exact h
      | chunk d =>
          have := ih _ h
          simp [FileSystem.write] at this

/-- An error-free body is appended whole to the output file and counted
whole into `job.downloaded_size`. -/
lemma processBody_ok (out : String) (ev : List StreamEvent) :
    ∀ (st : SimpleState) (f : List Nat), noNetErr ev = true → st.fs out = some f →
      (processBody out ev st).2 = true
      ∧ (processBody out ev st).1.fs out = some (f ++ chunksJoined ev)
      ∧ (processBody out ev st).1.downloaded
          = st.downloaded + (chunksJoined ev).length := by
  induction ev with
  | nil =>
      intro st f _ hf
      exact ⟨rfl, by simpa [chunksJoined] using hf, by simp [processBody, chunksJoined]⟩
  | cons e r ih =>
      intro st f hok hf
      cases e with
      | netErr => exact absurd hok (by simp [noNetErr])
      | chunk d =>
          have hfs : (FileSystem.write st.fs out ((st.fs out).getD [] ++ d)) out
              = some (f ++ d) := by simp [FileSystem.write, hf]
          obtain ⟨h1, h2, h3⟩ := ih
            { st with
              fs := st.fs.write out ((st.fs out).getD [] ++ d)
              downloaded := st.downloaded + d.length
              trace := st.trace ++ [st.downloaded + d.length] }
            (f ++ d) (by simpa [noNetErr] using hok) hfs
          refine ⟨h1, ?_, ?_⟩
          · rw [show processBody out (.chunk d :: r) st = processBody out r _ from rfl, h2]
            simp [chunksJoined]
          · rw [show processBody out (.chunk d :: r) st = processBody out r _ from rfl, h3]
            simp [chunksJoined]
            omega

/-- `processBody` preserves the tracker-trace invariant. -/
lemma processBody_traceInv (out : String) (ev : List StreamEvent) :
    ∀ st : SimpleState, traceInv st → traceInv (processBody out ev st).1 := by
  induction ev with
  | nil => intro st h; exact h
  | cons e r ih =>
      intro st h
      cases e with
      | netErr => exact h
      | chunk d =>
          apply ih
          obtain ⟨hch, hlast⟩ := h
          constructor
          · show List.Chain' _ (st.trace ++ [st.downloaded + d.length])
            rw [List.chain'_append]
            refine ⟨hch, List.chain'_singleton _, ?_⟩
            intro x hx y hy
            rcases hlast with hnil | hl
            · simp [hnil] at hx
            · rw [hl] at hx
              simp at hx hy
              left
              omega
          · right
            show (st.trace ++ [st.downloaded + d.length]).getLast? = _
            simp [List.getLast?_concat]

lemma SRel_refl (out : String) (st : SimpleState) : SRel out st st :=
  ⟨⟨[], by simp⟩, ⟨[], by simp⟩, ⟨[], by simp⟩, fun _ _ => rfl, id, id⟩

lemma SRel_trans {out : String} {st₁ st₂ st₃ : SimpleState}
    (h12 : SRel out st₁ st₂) (h23 : SRel out st₂ st₃) : SRel out st₁ st₃ := by
  obtain ⟨⟨t, ht⟩, ⟨g, hg⟩, ⟨sl, hsl⟩, hfr, hnd, hinv⟩ := h12
  obtain ⟨⟨t', ht'⟩, ⟨g', hg'⟩, ⟨sl', hsl'⟩, hfr', hnd', hinv'⟩ := h23
  exact ⟨⟨t ++ t', by rw [ht', ht, List.append_assoc]⟩,
    ⟨g ++ g', by rw [hg', hg, List.append_assoc]⟩,
    ⟨sl ++ sl', by rw [hsl', hsl, List.append_assoc]⟩,
    fun p hp => (hfr' p hp).trans (hfr p hp),
    fun h => hnd (hnd' h),
    fun h => hinv' (hinv h)⟩

lemma processBody_SRel (out : String) (ev : List StreamEvent) (st : SimpleState) :
    SRel out st (processBody out ev st).1 := by
  obtain ⟨t, h1, h2, h3, _, _⟩ := processBody_extends out ev st
  exact ⟨⟨t, h1⟩, ⟨[], by simp [h2]⟩, ⟨[], by simp [h3]⟩,
    processBody_frame out ev st, processBody_not_deleted out ev st,
    processBody_traceInv out ev st⟩

lemma SRel_logGet (out : String) (st : SimpleState) (x : Option Nat) :
    SRel out st { st with gets := st.gets ++ [x] } :=
  ⟨⟨[], by simp⟩, ⟨[x], by simp⟩, ⟨[], by simp⟩, fun _ _ => rfl, id, id⟩

lemma SRel_retry (out : String) (st : SimpleState) (sb w : Nat) :
    SRel out st
      { st with startByte := sb
                rangeHeader := some sb
                sleeps := st.sleeps ++ [w] } :=
  ⟨⟨[], by simp⟩, ⟨[], by simp⟩, ⟨[w], by simp⟩, fun _ _ => rfl, id, id⟩

lemma SRel_sleep (out : String) (st : SimpleState) (w : Nat) :
    SRel out st { st with sleeps := st.sleeps ++ [w] } :=
  ⟨⟨[], by simp⟩, ⟨[], by simp⟩, ⟨[w], by simp⟩, fun _ _ => rfl, id, id⟩

lemma SRel_reset (out : String) (st : SimpleState) :
    SRel out st
      { st with startByte := 0
                downloaded := 0
                trace := st.trace ++ [0] } := by
  refine ⟨⟨[0], by simp⟩, ⟨[], by simp⟩, ⟨[], by simp⟩, fun _ _ => rfl, id,
    fun hinv => ?_⟩
  obtain ⟨hch, _⟩ := hinv
  constructor
  · show List.Chain' _ (st.trace ++ [0])
    rw [List.chain'_append]
    exact ⟨hch, List.chain'_singleton _, fun x _ y hy => by
      simp at hy; exact Or.inr hy.symm⟩
  · right
    show (st.trace ++ [0]).getLast? = some 0
    simp

lemma SRel_write (out : String) (st : SimpleState) (content : List Nat) :
    SRel out st { st with fs := st.fs.write out content } :=
  ⟨⟨[], by simp⟩, ⟨[], by simp⟩, ⟨[], by simp⟩,
    fun p hp => by simp [FileSystem.write, hp],
    fun h => by simp [FileSystem.write] at h,
    id⟩

/-- One iteration of the retry loop: the state moves by `SRel`, exactly
one GET with the current `Range` header is logged, and the loop either
stops or continues on the remaining attempts. -/
lemma simpleLoop_step (oracle : Nat → GetResult) (out : String) (a : Nat) (r : List Nat)
    (st : SimpleState) :
    ∃ st', SRel out st st' ∧ st'.gets = st.gets ++ [st.rangeHeader] ∧
      ((simpleLoop oracle out (a :: r) st).1 = st'
        ∨ simpleLoop oracle out (a :: r) st = simpleLoop oracle out r st') := by
  have hGrel := SRel_logGet out st st.rangeHeader
  cases ho : oracle a with
  | failure =>
      cases r with
      | nil =>
          exact ⟨_, hGrel, rfl, .inl (by simp [simpleLoop, ho])⟩
      | cons b r' =>
          refine ⟨_, SRel_trans hGrel
            (SRel_retry out { st with gets := st.gets ++ [st.rangeHeader] }
              ((st.fs out).getD []).length (2 ^ a)), rfl, .inr ?_⟩
          simp only [simpleLoop, ho]
  | response status events =>
      by_cases h429 : status = 429
      · cases r with
        | nil =>
            exact ⟨_, hGrel, rfl, .inl (by simp [simpleLoop, ho, h429])⟩
        | cons b r' =>
            refine ⟨_, SRel_trans hGrel
              (SRel_sleep out { st with gets := st.gets ++ [st.rangeHeader] } (2 ^ a)),
              rfl, .inr ?_⟩
            simp only [simpleLoop, ho]
            rw [if_pos h429]
      · by_cases hrst : 0 < st.startByte ∧ status ≠ 206
        case pos =>
          have h1rel := SRel_trans hGrel
            (SRel_reset out { st with gets := st.gets ++ [st.rangeHeader] })
          by_cases h400 : 400 ≤ status
          · cases r with
            | nil =>
                refine ⟨_, h1rel, rfl, .inl ?_⟩
                simp only [simpleLoop, ho]
                rw [if_neg h429, if_pos hrst, if_pos h400]
            | cons b r' =>
                refine ⟨_, SRel_trans h1rel
                  (SRel_retry out
                    { st with gets := st.gets ++ [st.rangeHeader]
                              startByte := 0
                              downloaded := 0
                              trace := st.trace ++ [0] }
                    (((st.fs out).getD []).length) (2 ^ a)), rfl, .inr ?_⟩
                simp only [simpleLoop, ho]
                rw [if_neg h429, if_pos hrst, if_pos h400]
          · have hab : ¬(0 < st.startByte ∧ status = 206) := by
              rintro ⟨_, h206⟩; exact hrst.2 h206
            have h2rel := SRel_trans h1rel
              (SRel_write out
                { st with gets := st.gets ++ [st.rangeHeader]
                          startByte := 0
                          downloaded := 0
                          trace := st.trace ++ [0] } [])
            obtain ⟨st₃, hpb⟩ : ∃ q, processBody out events
                { st with gets := st.gets ++ [st.rangeHeader]
                          startByte := 0
                          downloaded := 0
                          trace := st.trace ++ [0]
                          fs := st.fs.write out [] } = q := ⟨_, rfl⟩
            have h3rel : SRel out st st₃.1 := by
              refine SRel_trans h2rel ?_
              have := processBody_SRel out events
                { st with gets := st.gets ++ [st.rangeHeader]
                          startByte := 0
                          downloaded := 0
                          trace := st.trace ++ [0]
                          fs := st.fs.write out [] }
              rwa [hpb] at this
            have hg3 : st₃.1.gets = st.gets ++ [st.rangeHeader] := by
              have := (processBody_extends out events
                { st with gets := st.gets ++ [st.rangeHeader]
                          startByte := 0
                          downloaded := 0
                          trace := st.trace ++ [0]
                          fs := st.fs.write out [] }).choose_spec.2.1
              rw [hpb] at this
              exact this
            cases hq : st₃.2 with
            | true =>
                refine ⟨st₃.1, h3rel, hg3, .inl ?_⟩
                simp only [simpleLoop, ho]
                rw [if_neg h429, if_pos hrst, if_neg h400, if_neg hab]
                rw [show (processBody out events _ : SimpleState × Bool) = st₃ from hpb]
                rw [show st₃ = (st₃.1, true) from by rw [← hq]]
            | false =>
                cases r with
                | nil =>
                    refine ⟨st₃.1, h3rel, hg3, .inl ?_⟩
                    simp only [simpleLoop, ho]
                    rw [if_neg h429, if_pos hrst, if_neg h400, if_neg hab]
                    rw [show (processBody out events _ : SimpleState × Bool) = st₃ from hpb]
                    rw [show st₃ = (st₃.1, false) from by rw [← hq]]
                | cons b r' =>
                    refine ⟨_, SRel_trans h3rel
                      (SRel_retry out st₃.1 ((st₃.1.fs out).getD []).length (2 ^ a)),
                      hg3, .inr ?_⟩
                    simp only [simpleLoop, ho]
                    rw [if_neg h429, if_pos hrst, if_neg h400, if_neg hab]
                    rw [show (processBody out events _ : SimpleState × Bool) = st₃ from hpb]
                    rw [show st₃ = (st₃.1, false) from by rw [← hq]]
        case neg =>
          by_cases h400 : 400 ≤ status
          · cases r with
            | nil =>
                refine ⟨_, hGrel, rfl, .inl ?_⟩
                simp only [simpleLoop, ho]
                rw [if_neg h429, if_neg hrst, if_pos h400]
            | cons b r' =>
                refine ⟨_, SRel_trans hGrel
                  (SRel_retry out { st with gets := st.gets ++ [st.rangeHeader] }
                    (((st.fs out).getD []).length) (2 ^ a)), rfl, .inr ?_⟩
                simp only [simpleLoop, ho]
                rw [if_neg h429, if_neg hrst, if_pos h400]
          · have h2rel := SRel_trans hGrel
              (SRel_write out { st with gets := st.gets ++ [st.rangeHeader] }
                (if 0 < st.startByte ∧ status = 206 then (st.fs out).getD [] else []))
            obtain ⟨st₃, hpb⟩ : ∃ q, processBody out events
                { st with gets := st.gets ++ [st.rangeHeader]
                          fs := st.fs.write out
                            (if 0 < st.startByte ∧ status = 206
                              then (st.fs out).getD [] else []) } = q := ⟨_, rfl⟩
            have h3rel : SRel out st st₃.1 := by
              refine SRel_trans h2rel ?_
              have := processBody_SRel out events
                { st with gets := st.gets ++ [st.rangeHeader]
                          fs := st.fs.write out
                            (if 0 < st.startByte ∧ status = 206
                              then (st.fs out).getD [] else []) }
              rwa [hpb] at this
            have hg3 : st₃.1.gets = st.gets ++ [st.rangeHeader] := by
              have := (processBody_extends out events
                { st with gets := st.gets ++ [st.rangeHeader]
                          fs := st.fs.write out
                            (if 0 < st.startByte ∧ status = 206
                              then (st.fs out).getD [] else []) }).choose_spec.2.1
              rw [hpb] at this
              exact this
            cases hq : st₃.2 with
            | true =>
                refine ⟨st₃.1, h3rel, hg3, .inl ?_⟩
                simp only [simpleLoop, ho]
                rw [if_neg h429, if_neg hrst, if_neg h400]
                rw [show (processBody out events _ : SimpleState × Bool) = st₃ from hpb]
                rw [show st₃ = (st₃.1, true) from by rw [← hq]]
            | false =>
                cases r with
                | nil =>
                    refine ⟨st₃.1, h3rel, hg3, .inl ?_⟩
                    simp only [simpleLoop, ho]
                    rw [if_neg h429, if_neg hrst, if_neg h400]
                    rw [show (processBody out events _ : SimpleState × Bool) = st₃ from hpb]
                    rw [show st₃ = (st₃.1, false) from by rw [← hq]]
                | cons b r' =>
                    refine ⟨_, SRel_trans h3rel
                      (SRel_retry out st₃.1 ((st₃.1.fs out).getD []).length (2 ^ a)),
                      hg3, .inr ?_⟩
                    simp only [simpleLoop, ho]
                    rw [if_neg h429, if_neg hrst, if_neg h400]
                    rw [show (processBody out events _ : SimpleState × Bool) = st₃ from hpb]
                    rw [show st₃ = (st₃.1, false) from by rw [← hq]]


/-- Across the whole retry loop: `SRel` holds between entry and exit
state, and when at least one attempt runs, the first logged GET carries
the entry `Range` header. -/
lemma simpleLoop_facts (oracle : Nat → GetResult) (out : String) (rem : List Nat) :
    ∀ st : SimpleState, SRel out st (simpleLoop oracle out rem st).1
      ∧ (rem ≠ [] → ∃ g, (simpleLoop oracle out rem st).1.gets
          = st.gets ++ st.rangeHeader :: g) := by
  induction rem with
  | nil =>
      intro st
      exact ⟨SRel_refl out st, fun h => absurd rfl h⟩
  | cons a r ih =>
      intro st
      obtain ⟨st', hrel, hg, hstep | hstep⟩ := simpleLoop_step oracle out a r st
      · rw [show simpleLoop oracle out (a :: r) st
            = ((simpleLoop oracle out (a :: r) st).1, (simpleLoop oracle out (a :: r) st).2)
            from rfl, hstep]
        exact ⟨hrel, fun _ => ⟨[], by simpa using hg⟩⟩
      · rw [hstep]
        obtain ⟨hrel', _⟩ := ih st'
        have hcomp := SRel_trans hrel hrel'
        obtain ⟨_, ⟨g', hg'⟩, _, _, _, _⟩ := hrel'
        refine ⟨hcomp, fun _ => ⟨g', ?_⟩⟩
        rw [hg', hg]
        simp

/-- `segBody` leaves the GET and sleep logs alone and only appends to
the trace. -/
lemma segBody_extends (base : Nat) (ev : List StreamEvent) :
    ∀ st : SegmentState, (segBody base ev st).1.gets = st.gets
      ∧ (segBody base ev st).1.sleeps = st.sleeps
      ∧ ∃ t, (segBody base ev st).1.trace = st.trace ++ t := by
  induction ev with
  | nil => intro st; exact ⟨rfl, rfl, [], by simp [segBody]⟩
  | cons e r ih =>
      intro st
      cases e with
      | netErr => exact ⟨rfl, rfl, [], by simp [segBody]⟩
      | chunk d =>
          obtain ⟨h1, h2, t, h3⟩ := ih
            { st with
              tempFile := some ((st.tempFile.getD []) ++ d)
              downloaded := st.downloaded + d.length
              trace := st.trace ++ [base + (st.downloaded + d.length)] }
          refine ⟨?_, ?_, (base + (st.downloaded + d.length)) :: t, ?_⟩
          · show (segBody base r _).1.gets = _
            rw [h1]
          · show (segBody base r _).1.sleeps = _
            rw [h2]
          · show (segBody base r _).1.trace = _
            rw [h3]; simp

/-- `segBody` preserves the segment-trace invariant: the values passed
to the tracker grow with the downloaded count. -/
lemma segBody_traceInv (base : Nat) (ev : List StreamEvent) :
    ∀ st : SegmentState, segTraceInv base st → segTraceInv base (segBody base ev st).1 := by
  induction ev with
  | nil => intro st h; exact h
  | cons e r ih =>
      intro st h
      cases e with
      | netErr => exact h
      | chunk d =>
          apply ih
          obtain ⟨hch, hlast⟩ := h
          constructor
          · show List.Chain' _ (st.trace ++ [base + (st.downloaded + d.length)])
            rw [List.chain'_append]
            refine ⟨hch, List.chain'_singleton _, ?_⟩
            intro x hx y hy
            rcases hlast with hnil | hl
            · simp [hnil] at hx
            · rw [hl] at hx
              simp at hx hy
              omega
          · right
            show (st.trace ++ [base + (st.downloaded + d.length)]).getLast? = _
            simp

/-- A response outside `{200, 206, 429}` makes the segment fetcher fail
at once: one GET, no sleep, no retry, segment not completed. -/
lemma segLoop_fatal (oracle : Nat → GetResult) (base start : Nat) (stop : Int)
    (a : Nat) (r : List Nat) (st : SegmentState) (s : Nat) (ev : List StreamEvent)
    (ho : oracle a = .response s ev) (hs200 : s ≠ 200) (hs206 : s ≠ 206) (hs429 : s ≠ 429) :
    segLoop oracle base start stop (a :: r) st
      = ({ st with gets := st.gets ++ [(start + st.downloaded, stop)] },
          some (.httpStatus s)) := by
  simp only [segLoop, ho]
  rw [if_neg hs429, if_pos ⟨hs200, hs206⟩]

/-- Across the whole segment retry loop: the GET log grows, its first
new entry asking for `bytes={start+downloaded}-{end}`, and the
segment-trace invariant is preserved. -/
lemma segLoop_facts (oracle : Nat → GetResult) (base start : Nat) (stop : Int)
    (rem : List Nat) :
    ∀ st : SegmentState,
      (∃ g, (segLoop oracle base start stop rem st).1.gets = st.gets ++ g
        ∧ (rem ≠ [] → ∃ g', g = (start + st.downloaded, stop) :: g'))
      ∧ (segTraceInv base st → segTraceInv base (segLoop oracle base start stop rem st).1) := by
  induction rem with
  | nil =>
      intro st
      exact ⟨⟨[], by simp [segLoop], fun h => absurd rfl h⟩, fun h => h⟩
  | cons a r ih =>
      intro st
      have hGinv : segTraceInv base st →
          segTraceInv base { st with gets := st.gets ++ [(start + st.downloaded, stop)] } :=
        fun h => h
      cases ho : oracle a with
      | failure =>
          cases r with
          | nil =>
              refine ⟨⟨[(start + st.downloaded, stop)], ?_, ?_⟩, ?_⟩
              · simp [segLoop, ho]
              · exact fun _ => ⟨[], rfl⟩
              · intro h
                have : (segLoop oracle base start stop [a] st)
                    = ({ st with gets := st.gets ++ [(start + st.downloaded, stop)] },
                        some .transport) := by simp [segLoop, ho]
                rw [this]
                exact h
          | cons b r' =>
              have heq : segLoop oracle base start stop (a :: b :: r') st
                  = segLoop oracle base start stop (b :: r')
                    { st with gets := st.gets ++ [(start + st.downloaded, stop)]
                              sleeps := st.sleeps ++ [2 ^ a] } := by
                simp [segLoop, ho]
              rw [heq]
              obtain ⟨⟨g, hg, _⟩, hinv⟩ := ih
                { st with gets := st.gets ++ [(start + st.downloaded, stop)]
                          sleeps := st.sleeps ++ [2 ^ a] }
              refine ⟨⟨(start + st.downloaded, stop) :: g, ?_, fun _ => ⟨g, rfl⟩⟩,
                fun h => hinv h⟩
              rw [hg]; simp
      | response status events =>
          by_cases h429 : status = 429
          · cases r with
            | nil =>
                refine ⟨⟨[(start + st.downloaded, stop)], ?_, fun _ => ⟨[], rfl⟩⟩, ?_⟩
                · simp [segLoop, ho, h429]
                · intro h
                  have : (segLoop oracle base start stop [a] st)
                      = ({ st with gets := st.gets ++ [(start + st.downloaded, stop)] },
                          some .tooManyRequests) := by simp [segLoop, ho, h429]
                  rw [this]
                  exact h
            | cons b r' =>
                have heq : segLoop oracle base start stop (a :: b :: r') st
                    = segLoop oracle base start stop (b :: r')
                      { st with gets := st.gets ++ [(start + st.downloaded, stop)]
                                sleeps := st.sleeps ++ [2 ^ a] } := by
                  simp only [segLoop, ho]
                  rw [if_pos h429]
                rw [heq]
                obtain ⟨⟨g, hg, _⟩, hinv⟩ := ih
                  { st with gets := st.gets ++ [(start + st.downloaded, stop)]
                            sleeps := st.sleeps ++ [2 ^ a] }
                refine ⟨⟨(start + st.downloaded, stop) :: g, ?_, fun _ => ⟨g, rfl⟩⟩,
                  fun h => hinv h⟩
                rw [hg]; simp
          · by_cases hokst : status ≠ 200 ∧ status ≠ 206
            · have heq := segLoop_fatal oracle base start stop a r st status events ho
                hokst.1 hokst.2 h429
              rw [heq]
              exact ⟨⟨[(start + st.downloaded, stop)], rfl, fun _ => ⟨[], rfl⟩⟩, fun h => h⟩
            · obtain ⟨st₂, ok, hpb⟩ : ∃ q b, segBody base events
                  { st with gets := st.gets ++ [(start + st.downloaded, stop)]
                            tempFile := some (if 0 < st.downloaded
                              then st.tempFile.getD [] else []) } = (q, b) := ⟨_, _, rfl⟩
              have hbext := segBody_extends base events
                { st with gets := st.gets ++ [(start + st.downloaded, stop)]
                          tempFile := some (if 0 < st.downloaded
                            then st.tempFile.getD [] else []) }
              rw [hpb] at hbext
              have hbinv : segTraceInv base st → segTraceInv base st₂ := by
                intro h
                have := segBody_traceInv base events
                  { st with gets := st.gets ++ [(start + st.downloaded, stop)]
                            tempFile := some (if 0 < st.downloaded
                              then st.tempFile.getD [] else []) } h
                rwa [hpb] at this
              cases ok with
              | true =>
                  have heq : segLoop oracle base start stop (a :: r) st
                      = ({ st₂ with completed := true }, none) := by
                    simp only [segLoop, ho]
                    rw [if_neg h429, if_neg hokst, hpb]
                  rw [heq]
                  exact ⟨⟨[(start + st.downloaded, stop)], hbext.1, fun _ => ⟨[], rfl⟩⟩,
                    fun h => hbinv h⟩
              | false =>
                  cases r with
                  | nil =>
                      have heq : segLoop oracle base start stop [a] st
                          = (st₂, some .transport) := by
                        simp only [segLoop, ho]
                        rw [if_neg h429, if_neg hokst, hpb]
                      rw [heq]
                      exact ⟨⟨[(start + st.downloaded, stop)], hbext.1, fun _ => ⟨[], rfl⟩⟩,
                        fun h => hbinv h⟩
                  | cons b r' =>
                      have heq : segLoop oracle base start stop (a :: b :: r') st
                          = segLoop oracle base start stop (b :: r')
                            { st₂ with sleeps := st₂.sleeps ++ [2 ^ a] } := by
                        simp only [segLoop, ho]
                        rw [if_neg h429, if_neg hokst, hpb]
                      rw [heq]
                      obtain ⟨⟨g2, hg2, _⟩, hinv2⟩ := ih
                        { st₂ with sleeps := st₂.sleeps ++ [2 ^ a] }
                      refine ⟨⟨(start + st.downloaded, stop) :: g2, ?_,
                        fun _ => ⟨g2, rfl⟩⟩, fun h => hinv2 (hbinv h)⟩
                      rw [hg2]
                      show st₂.gets ++ g2 = _
                      rw [hbext.1]
                      simp

/-- When the output file does not exist, `_download_simple` goes
straight into the retry loop with an empty state. -/
lemma downloadSimple_no_file (oracle : Nat → GetResult) (max_retries : Nat)
    (size : Option Nat) (resume_supported : Bool) (out : String) (fs : FileSystem)
    (hfs : fs out = none) :
    downloadSimple oracle max_retries size resume_supported out fs
      = simpleLoop oracle out (List.range (max_retries + 1))
        { fs := fs, startByte := 0, rangeHeader := none, downloaded := 0,
          trace := [], gets := [], sleeps := [] } := by
  unfold downloadSimple
  rw [hfs]
  rfl

/-- Shape of `_download_simple` when the output file exists and resume
is supported: either the early already-complete return, or the retry
loop seeded with the current file size. -/
lemma downloadSimple_resume_eq (oracle : Nat → GetResult) (max_retries : Nat)
    (size : Option Nat) (out : String) (fs : FileSystem) (c : List Nat)
    (hfs : fs out = some c) :
    downloadSimple oracle max_retries size true out fs
      = if 0 < c.length then
          (if (optTruthy size && decide (size.getD 0 ≤ c.length)) = true then
            ({ fs := fs, startByte := c.length, rangeHeader := none,
               downloaded := c.length, trace := [], gets := [], sleeps := [] },
              .alreadyComplete)
          else
            simpleLoop oracle out (List.range (max_retries + 1))
              { fs := fs, startByte := c.length, rangeHeader := some c.length,
                downloaded := c.length, trace := [c.length], gets := [], sleeps := [] })
        else
          simpleLoop oracle out (List.range (max_retries + 1))
            { fs := fs, startByte := 0, rangeHeader := none, downloaded := 0,
              trace := [], gets := [], sleeps := [] } := by
  unfold downloadSimple
  rw [hfs]
  rfl

/-- Without resume support an existing file is ignored: the loop starts
from zero. -/
lemma downloadSimple_noresume_eq (oracle : Nat → GetResult) (max_retries : Nat)
    (size : Option Nat) (out : String) (fs : FileSystem) (c : List Nat)
    (hfs : fs out = some c) :
    downloadSimple oracle max_retries size false out fs
      = simpleLoop oracle out (List.range (max_retries + 1))
        { fs := fs, startByte := 0, rangeHeader := none, downloaded := 0,
          trace := [], gets := [], sleeps := [] } := by
  unfold downloadSimple
  rw [hfs]
  rfl

/-- The streaming trace respects the move-up-or-reset discipline. -/
lemma downloadSimple_traceOk (oracle : Nat → GetResult) (max_retries : Nat)
    (size : Option Nat) (resume_supported : Bool) (out : String) (fs : FileSystem) :
    (downloadSimple oracle max_retries size resume_supported out fs).1.trace.Chain'
      (fun a b => a ≤ b ∨ b = 0) := by
  have hloop : ∀ st : SimpleState, traceInv st →
      ((simpleLoop oracle out (List.range (max_retries + 1)) st).1.trace.Chain'
        fun a b => a ≤ b ∨ b = 0) := by
    intro st h
    obtain ⟨⟨_, _, _, _, _, hinv⟩, _⟩ :=
      simpleLoop_facts oracle out (List.range (max_retries + 1)) st
    exact (hinv h).1
  cases hfs : fs out with
  | none =>
      rw [downloadSimple_no_file oracle max_retries size resume_supported out fs hfs]
      exact hloop _ ⟨List.chain'_nil, Or.inl rfl⟩
  | some c =>
      cases resume_supported with
      | false =>
          rw [downloadSimple_noresume_eq oracle max_retries size out fs c hfs]
          exact hloop _ ⟨List.chain'_nil, Or.inl rfl⟩
      | true =>
          rw [downloadSimple_resume_eq oracle max_retries size out fs c hfs]
          by_cases h0 : 0 < c.length
          · rw [if_pos h0]
            by_cases hb : (optTruthy size && decide (size.getD 0 ≤ c.length)) = true
            · rw [if_pos hb]
              exact List.chain'_nil
            · rw [if_neg hb]
              exact hloop _ ⟨List.chain'_singleton _, Or.inr rfl⟩
          · rw [if_neg h0]
            exact hloop _ ⟨List.chain'_nil, Or.inl rfl⟩

/-- When every attempt is answered with the same non-429 error status
`s ≥ 400`, the streaming loop issues one GET per attempt, sleeps between
attempts, and finally fails with that HTTP status. -/
lemma simpleLoop_all4xx (oracle : Nat → GetResult) (out : String) (s : Nat)
    (hs4 : 400 ≤ s) (hs429 : s ≠ 429)
    (hor : ∀ a, ∃ ev, oracle a = .response s ev) (rem : List Nat) :
    rem ≠ [] → ∀ st : SimpleState,
      (simpleLoop oracle out rem st).2 = .failed (.httpStatus s)
      ∧ (simpleLoop oracle out rem st).1.gets.length = st.gets.length + rem.length
      ∧ (simpleLoop oracle out rem st).1.sleeps.length
          = st.sleeps.length + (rem.length - 1) := by
  induction rem with
  | nil => intro h; exact absurd rfl h
  | cons a r ih =>
      intro _ st
      obtain ⟨ev, ho⟩ := hor a
      by_cases hrst : 0 < st.startByte ∧ s ≠ 206
      · cases r with
        | nil =>
            have heq : simpleLoop oracle out [a] st
                = ({ st with gets := st.gets ++ [st.rangeHeader]
                             startByte := 0
                             downloaded := 0
                             trace := st.trace ++ [0] },
                    .failed (.httpStatus s)) := by
              simp only [simpleLoop, ho]
              rw [if_neg hs429, if_pos hrst, if_pos hs4]
            rw [heq]
            refine ⟨rfl, by simp, by simp⟩
        | cons b r' =>
            have heq : simpleLoop oracle out (a :: b :: r') st
                = simpleLoop oracle out (b :: r')
                  { st with gets := st.gets ++ [st.rangeHeader]
                            startByte := ((st.fs out).getD []).length
                            rangeHeader := some ((st.fs out).getD []).length
                            downloaded := 0
                            trace := st.trace ++ [0]
                            sleeps := st.sleeps ++ [2 ^ a] } := by
              simp only [simpleLoop, ho]
              rw [if_neg hs429, if_pos hrst, if_pos hs4]
            rw [heq]
            obtain ⟨h1, h2, h3⟩ := ih (by simp) _
            refine ⟨h1, ?_, ?_⟩
            · rw [h2]; simp; omega
            · rw [h3]; simp; omega
      · cases r with
        | nil =>
            have heq : simpleLoop oracle out [a] st
                = ({ st with gets := st.gets ++ [st.rangeHeader] },
                    .failed (.httpStatus s)) := by
              simp only [simpleLoop, ho]
              rw [if_neg hs429, if_neg hrst, if_pos hs4]
            rw [heq]
            refine ⟨rfl, by simp, by simp⟩
        | cons b r' =>
            have heq : simpleLoop oracle out (a :: b :: r') st
                = simpleLoop oracle out (b :: r')
                  { st with gets := st.gets ++ [st.rangeHeader]
                            startByte := ((st.fs out).getD []).length
                            rangeHeader := some ((st.fs out).getD []).length
                            sleeps := st.sleeps ++ [2 ^ a] } := by
              simp only [simpleLoop, ho]
              rw [if_neg hs429, if_neg hrst, if_pos hs4]
            rw [heq]
            obtain ⟨h1, h2, h3⟩ := ih (by simp) _
            refine ⟨h1, ?_, ?_⟩
            · rw [h2]; simp; omega
            · rw [h3]; simp; omega

/-- With an existing non-empty file, resume supported and the file not
yet complete, `_download_simple` enters the retry loop seeded with the
file size. -/
lemma downloadSimple_resume_loop (oracle : Nat → GetResult) (max_retries : Nat)
    (size : Option Nat) (out : String) (fs : FileSystem) (c : List Nat)
    (hfs : fs out = some c) (hN : 0 < c.length)
    (hnc : ¬(optTruthy size = true ∧ size.getD 0 ≤ c.length)) :
    downloadSimple oracle max_retries size true out fs
      = simpleLoop oracle out (List.range (max_retries + 1))
        { fs := fs, startByte := c.length, rangeHeader := some c.length,
          downloaded := c.length, trace := [c.length], gets := [], sleeps := [] } := by
  rw [downloadSimple_resume_eq oracle max_retries size out fs c hfs, if_pos hN,
    if_neg (by simpa [Bool.and_eq_true, decide_eq_true_eq] using hnc)]

/-- Under the same conditions the first GET carries `Range: bytes=N-`
and the tracker is seeded with `N`, the existing file size. -/
lemma downloadSimple_resumeHead (oracle : Nat → GetResult) (max_retries : Nat)
    (size : Option Nat) (out : String) (fs : FileSystem) (c : List Nat)
    (hfs : fs out = some c) (hN : 0 < c.length)
    (hnc : ¬(optTruthy size = true ∧ size.getD 0 ≤ c.length)) :
    resumeHead oracle max_retries size out fs c.length := by
  unfold resumeHead
  rw [downloadSimple_resume_loop oracle max_retries size out fs c hfs hN hnc]
  obtain ⟨⟨⟨t, ht⟩, _, _, _, _, _⟩, hhead⟩ :=
    simpleLoop_facts oracle out (List.range (max_retries + 1))
      { fs := fs, startByte := c.length, rangeHeader := some c.length,
        downloaded := c.length, trace := [c.length], gets := [], sleeps := [] }
  constructor
  · obtain ⟨g, hg⟩ := hhead (by simp)
    rw [hg]
    rfl
  · rw [ht]
    rfl

/-- One loop iteration on a pending range answered `206` with a clean
body: append mode, the body lands after the existing bytes, and the
loop succeeds. -/
lemma simpleLoop_append_ok (oracle : Nat → GetResult) (out : String) (a : Nat)
    (r : List Nat) (st : SimpleState) (status : Nat) (ev : List StreamEvent) (f : List Nat)
    (ho : oracle a = .response status ev) (h206 : status = 206) (hsb : 0 < st.startByte)
    (hf : st.fs out = some f) (hne : noNetErr ev = true) :
    (simpleLoop oracle out (a :: r) st).2 = .ok
    ∧ (simpleLoop oracle out (a :: r) st).1.fs out = some (f ++ chunksJoined ev)
    ∧ (simpleLoop oracle out (a :: r) st).1.downloaded
        = st.downloaded + (chunksJoined ev).length := by
  obtain ⟨q, b, hpb⟩ : ∃ q b, processBody out ev
      { st with gets := st.gets ++ [st.rangeHeader]
                fs := st.fs.write out ((st.fs out).getD []) } = (q, b) := ⟨_, _, rfl⟩
  have hok := processBody_ok out ev
      { st with gets := st.gets ++ [st.rangeHeader]
                fs := st.fs.write out ((st.fs out).getD []) } f hne
      (by simp [FileSystem.write, hf])
  rw [hpb] at hok
  have hb : b = true := hok.1
  have heq : simpleLoop oracle out (a :: r) st = (q, .ok) := by
    simp only [simpleLoop, ho]
    rw [if_neg (by omega : ¬(status = 429)),
      if_neg (by rintro ⟨_, h⟩; exact h h206 : ¬(0 < st.startByte ∧ status ≠ 206)),
      if_neg (by omega : ¬(400 ≤ status)),
      if_pos (⟨hsb, h206⟩ : 0 < st.startByte ∧ status = 206), hpb, hb]
  rw [heq]
  exact ⟨rfl, hok.2.1, hok.2.2⟩

/-- One loop iteration on a pending range answered with a non-206
success status (range ignored) and a clean body: the tracker is reset
to `0`, the file is truncated, and the body is written from scratch. -/
lemma simpleLoop_truncate_ok (oracle : Nat → GetResult) (out : String) (a : Nat)
    (r : List Nat) (st : SimpleState) (status : Nat) (ev : List StreamEvent)
    (ho : oracle a = .response status ev)
    (h429 : status ≠ 429) (h400 : ¬ 400 ≤ status)
    (hrst : 0 < st.startByte ∧ status ≠ 206) (hne : noNetErr ev = true) :
    (simpleLoop oracle out (a :: r) st).2 = .ok
    ∧ (simpleLoop oracle out (a :: r) st).1.fs out = some (chunksJoined ev)
    ∧ (simpleLoop oracle out (a :: r) st).1.downloaded = (chunksJoined ev).length
    ∧ ∃ t, (simpleLoop oracle out (a :: r) st).1.trace = (st.trace ++ [0]) ++ t := by
  obtain ⟨q, b, hpb⟩ : ∃ q b, processBody out ev
      { st with gets := st.gets ++ [st.rangeHeader]
                startByte := 0
                downloaded := 0
                trace := st.trace ++ [0]
                fs := st.fs.write out [] } = (q, b) := ⟨_, _, rfl⟩
  have hok := processBody_ok out ev
      { st with gets := st.gets ++ [st.rangeHeader]
                startByte := 0
                downloaded := 0
                trace := st.trace ++ [0]
                fs := st.fs.write out [] } [] hne (by simp [FileSystem.write])
  rw [hpb] at hok
  obtain ⟨t, htr, _, _, _, _⟩ := processBody_extends out ev
      { st with gets := st.gets ++ [st.rangeHeader]
                startByte := 0
                downloaded := 0
                trace := st.trace ++ [0]
                fs := st.fs.write out [] }
  rw [hpb] at htr
  have hmode : ¬(0 < st.startByte ∧ status = 206) := by
    rintro ⟨_, h⟩; exact hrst.2 h
  have hb : b = true := hok.1
  have heq : simpleLoop oracle out (a :: r) st = (q, .ok) := by
    simp only [simpleLoop, ho]
    rw [if_neg h429, if_pos hrst, if_neg h400, if_neg hmode, hpb, hb]
  rw [heq]
  exact ⟨rfl, by simpa using hok.2.1, by simpa using hok.2.2, t, htr⟩

/-- `_download_simple` touches no path but the output path and never
deletes the output file. -/
lemma downloadSimple_fs_facts (oracle : Nat → GetResult) (max_retries : Nat)
    (size : Option Nat) (resume_supported : Bool) (out : String) (fs : FileSystem) :
    (∀ p, p ≠ out → (downloadSimple oracle max_retries size resume_supported out fs).1.fs p
        = fs p)
    ∧ ((downloadSimple oracle max_retries size resume_supported out fs).1.fs out = none →
        fs out = none) := by
  have hloop := fun st =>
    (simpleLoop_facts oracle out (List.range (max_retries + 1)) st).1
  cases hfs : fs out with
  | none =>
      rw [downloadSimple_no_file oracle max_retries size resume_supported out fs hfs]
      obtain ⟨_, _, _, hfr, _, _⟩ := hloop
        { fs := fs, startByte := 0, rangeHeader := none, downloaded := 0,
          trace := [], gets := [], sleeps := [] }
      exact ⟨fun p hp => hfr p hp, fun _ => rfl⟩
  | some c =>
      cases resume_supported with
      | false =>
          rw [downloadSimple_noresume_eq oracle max_retries size out fs c hfs]
          obtain ⟨_, _, _, hfr, hnd, _⟩ := hloop
            { fs := fs, startByte := 0, rangeHeader := none, downloaded := 0,
              trace := [], gets := [], sleeps := [] }
          exact ⟨fun p hp => hfr p hp, fun h => hfs ▸ hnd h⟩
      | true =>
          rw [downloadSimple_resume_eq oracle max_retries size out fs c hfs]
          by_cases h0 : 0 < c.length
          · rw [if_pos h0]
            by_cases hb : (optTruthy size && decide (size.getD 0 ≤ c.length)) = true
            · rw [if_pos hb]
              exact ⟨fun p _ => rfl, fun h => hfs ▸ (show fs out = none from h)⟩
            · rw [if_neg hb]
              obtain ⟨_, _, _, hfr, hnd, _⟩ := hloop
                { fs := fs, startByte := c.length, rangeHeader := some c.length,
                  downloaded := c.length, trace := [c.length], gets := [], sleeps := [] }
              exact ⟨fun p hp => hfr p hp, fun h => hfs ▸ hnd h⟩
          · rw [if_neg h0]
            obtain ⟨_, _, _, hfr, hnd, _⟩ := hloop
              { fs := fs, startByte := 0, rangeHeader := none, downloaded := 0,
                trace := [], gets := [], sleeps := [] }
            exact ⟨fun p hp => hfr p hp, fun h => hfs ▸ hnd h⟩

/-- Every segment fetch issues at least one GET. -/
lemma downloadSegment_gets_ne (oracle : Nat → GetResult) (max_retries base start : Nat)
    (stop : Int) :
    (downloadSegment oracle max_retries base start stop).1.gets ≠ [] := by
  obtain ⟨⟨g, hg, hhd⟩, _⟩ := segLoop_facts oracle base start stop
    (List.range (max_retries + 1))
    { tempFile := none, downloaded := 0, trace := [], gets := [], sleeps := [],
      completed := false }
  obtain ⟨g', hg'⟩ := hhd (by simp)
  unfold downloadSegment
  rw [hg, hg']
  simp

/-! ## Claim theorems -/

/-- C1: the claim says the segment fetcher accepts a `200` answer to a
ranged request only when `downloaded == 0`, `start == 0` and the segment
covers the whole file, and otherwise must fail the job with a
`RangeIgnored` error.  The code accepts `200` unconditionally: for the
segment `[5, 9]` of a 10-byte file, a `200` response carrying the full
body is accepted, the whole body is written to the staging file, the
segment is marked completed, and `downloaded` becomes 10 — twice the
segment's size of 5 — with no error of any kind. -/
theorem segment_accepts_200_mid_file :
    downloadSegment (fun _ => .response 200 [.chunk [0, 1, 2, 3, 4, 5, 6, 7, 8, 9]]) 3 0 5 9
      = ({ tempFile := some [0, 1, 2, 3, 4, 5, 6, 7, 8, 9], downloaded := 10,
           trace := [10], gets := [(5, 9)], sleeps := [], completed := true }, none)
    ∧ Segment.size ⟨1, 5, 9⟩ = 5 := ⟨rfl, rfl⟩

/-- C2: the claim says a URL matched by a site-specific extractor is
dispatched to that extractor, the generic HTTP extractor being a last
resort.  The registry registers the HTTP plugin first and iterates in
insertion order, so for `https://gofile.io/d/abc123` — which the gofile
plugin handles — the lookup returns the generic `http` plugin. -/
theorem gofile_url_dispatches_to_http :
    (getPluginForUrl builtinPlugins ("https://gofile.io/d/abc123".toList)).map RegPlugin.name
        = some "http"
    ∧ gofileCanHandle ("https://gofile.io/d/abc123".toList) = true
    ∧ httpCanHandle ("https://gofile.io/d/abc123".toList) = true := by
  refine ⟨?_, ?_, ?_⟩ <;> rfl

/-- C3: for `total_size > 0` and `n ≥ 1` the planner yields exactly `n`
segments with the claimed start/end formulas, pairwise non-overlapping,
covering `[0, total_size - 1]`, with sizes summing to `total_size`. -/
theorem createSegments_partition (total n : Nat) (htotal : 0 < total) (hn : 1 ≤ n) :
    plannerSpec total n := by
  refine ⟨?_, ?_, ?_, ?_, ?_, ?_, planner_sum total n hn⟩
  · simp [createSegments_eq_map]
  · intro seg hseg
    obtain ⟨i, hi, rfl⟩ := mem_createSegments.mp hseg
    rfl
  · intro seg hseg hlt
    obtain ⟨i, hi, rfl⟩ := mem_createSegments.mp hseg
    simp only at hlt ⊢
    rw [if_neg (by omega)]
    push_cast
    ring
  · intro seg hseg hlast
    obtain ⟨i, hi, rfl⟩ := mem_createSegments.mp hseg
    simp only at hlast ⊢
    rw [if_pos hlast]
  · intro seg₁ hseg₁ seg₂ hseg₂ hne b hcontra
    obtain ⟨i, hi, rfl⟩ := mem_createSegments.mp hseg₁
    obtain ⟨j, hj, rfl⟩ := mem_createSegments.mp hseg₂
    simp only at hne
    obtain ⟨h1, h2, h3, h4⟩ := hcontra
    rcases Nat.lt_or_ge i j with hij | hij
    · exact segPair_disjoint total n i j hj hij b h1 h2 h3
    · exact segPair_disjoint total n j i hi (by omega) b h3 h4 h1
  · intro b hb0 hb1
    obtain ⟨i, hi, hstart, hstop⟩ := planner_covers total n hn b hb0 hb1
    exact ⟨_, mem_createSegments.mpr ⟨i, hi, rfl⟩, hstart, hstop⟩

/-- C3 witness: the planner property at `total_size = 5`, `n = 2`. -/
theorem createSegments_partition_witness :
    0 < 5 ∧ 1 ≤ 2 ∧ plannerSpec 5 2 :=
  ⟨by decide, by decide, createSegments_partition 5 2 (by decide) (by decide)⟩

/-- C4: the engine selects the segmented strategy iff the size is known
and positive enough — strictly greater than `chunk_size` (which forces
it nonzero, so Python's truthiness test agrees) — resume is supported
and more than one thread is requested; in every other case, including a
known size of `0`, it selects the streaming strategy. -/
theorem strategy_selection (info : DownloadInfo) (chunk_size num_threads : Nat) :
    (chooseStrategy info chunk_size num_threads = .segmented ↔
      ∃ s, info.size = some s ∧ info.resume_supported = true ∧
        chunk_size < s ∧ 1 < num_threads)
    ∧ (chooseStrategy info chunk_size num_threads = .streaming ↔
      ¬ ∃ s, info.size = some s ∧ info.resume_supported = true ∧
        chunk_size < s ∧ 1 < num_threads) := by
  have hiff : chooseSegmented info chunk_size num_threads = true ↔
      ∃ s, info.size = some s ∧ info.resume_supported = true ∧
        chunk_size < s ∧ 1 < num_threads := by
    unfold chooseSegmented
    cases hsz : info.size with
    | none => simp [hsz]
    | some s =>
        simp only [Bool.and_eq_true, decide_eq_true_eq, Option.some.injEq]
        constructor
        · rintro ⟨⟨⟨hne, hres⟩, hch⟩, hth⟩
          exact ⟨s, rfl, hres, hch, hth⟩
        · rintro ⟨t, ht, hres, hch, hth⟩
          cases ht
          exact ⟨⟨⟨by omega, hres⟩, hch⟩, hth⟩
  constructor
  · unfold chooseStrategy
    rcases h : chooseSegmented info chunk_size num_threads with _ | _
    · simp only [h, if_false, Bool.false_eq_true]
      constructor
      · intro hcontra; cases hcontra
      · intro hex; rw [← hiff] at hex; cases h ▸ hex
    · simpa [h] using hiff.mp h
  · unfold chooseStrategy
    rcases h : chooseSegmented info chunk_size num_threads with _ | _
    · have : ¬ ∃ s, info.size = some s ∧ info.resume_supported = true ∧
          chunk_size < s ∧ 1 < num_threads := by
        intro hex; rw [← hiff] at hex; cases h ▸ hex
      simp [h, this]
    · have := hiff.mp h
      simp [h, this]

/-- C5 counterexample: the claim says that whenever the output file
exists with size `N > 0` and resume is supported, the engine sends
`Range: bytes=N-` and seeds the tracker with `N`.  But when the local
file is already complete (`N ≥ total_size`), `_download_simple` returns
early: no GET is issued at all (so no `Range` header is sent) and the
tracker is never updated. -/
theorem resume_skipped_when_complete :
    (FileSystem.write (fun _ => none) "out" [1, 2, 3, 4, 5]) "out" = some [1, 2, 3, 4, 5]
    ∧ (downloadSimple (fun _ => .failure) 3 (some 5) true "out"
        (FileSystem.write (fun _ => none) "out" [1, 2, 3, 4, 5])).2 = .alreadyComplete
    ∧ (downloadSimple (fun _ => .failure) 3 (some 5) true "out"
        (FileSystem.write (fun _ => none) "out" [1, 2, 3, 4, 5])).1.gets = []
    ∧ (downloadSimple (fun _ => .failure) 3 (some 5) true "out"
        (FileSystem.write (fun _ => none) "out" [1, 2, 3, 4, 5])).1.trace = [] :=
  ⟨rfl, rfl, rfl, rfl⟩

/-- C5 (amended): in the streaming path, whenever the output file
already exists with size `N > 0`, resume is supported and the file is
not already complete (`N` below the known total), the engine sends
`Range: bytes=N-` on its first GET and seeds the tracker and job with
`N`; if the server answers `206` the body is appended to the existing
bytes, and if it answers `200` (range ignored) the tracker is reset to
`0` and the file is truncated before the body is written from byte
zero. -/
theorem resume_range_behaviour (oracle : Nat → GetResult) (max_retries : Nat)
    (size : Option Nat) (out : String) (fs : FileSystem) (c : List Nat)
    (hfs : fs out = some c) (hN : 0 < c.length)
    (hnc : ¬(optTruthy size = true ∧ size.getD 0 ≤ c.length)) :
    resumeSpec oracle max_retries size out fs c := by
  refine ⟨downloadSimple_resumeHead oracle max_retries size out fs c hfs hN hnc, ?_, ?_⟩
  · intro ev ho hne
    rw [downloadSimple_resume_loop oracle max_retries size out fs c hfs hN hnc,
      List.range_succ_eq_map max_retries]
    obtain ⟨h1, h2, h3⟩ := simpleLoop_append_ok oracle out 0
      (List.map Nat.succ (List.range max_retries))
      { fs := fs, startByte := c.length, rangeHeader := some c.length,
        downloaded := c.length, trace := [c.length], gets := [], sleeps := [] }
      206 ev c ho rfl hN hfs hne
    exact ⟨h1, h2, h3⟩
  · intro ev ho hne
    rw [downloadSimple_resume_loop oracle max_retries size out fs c hfs hN hnc,
      List.range_succ_eq_map max_retries]
    obtain ⟨h1, h2, h3, t, htr⟩ := simpleLoop_truncate_ok oracle out 0
      (List.map Nat.succ (List.range max_retries))
      { fs := fs, startByte := c.length, rangeHeader := some c.length,
        downloaded := c.length, trace := [c.length], gets := [], sleeps := [] }
      200 ev ho (by omega) (by omega) ⟨hN, by omega⟩ hne
    refine ⟨h1, h2, ?_, h3⟩
    rw [htr]
    simp

/-- C5 witness: a 2-byte file, known size 3, answered `206` with one
more chunk. -/
theorem resume_range_behaviour_witness :
    ((FileSystem.write (fun _ => none) "out" [7, 8]) "out" = some [7, 8]
      ∧ 0 < ([7, 8] : List Nat).length
      ∧ ¬(optTruthy (some 3) = true ∧ (some 3).getD 0 ≤ ([7, 8] : List Nat).length))
    ∧ resumeSpec (fun _ => .response 206 [.chunk [9]]) 0 (some 3) "out"
        (FileSystem.write (fun _ => none) "out" [7, 8]) [7, 8] :=
  ⟨⟨rfl, by decide, by decide⟩,
    resume_range_behaviour (fun _ => .response 206 [.chunk [9]]) 0 (some 3) "out"
      (FileSystem.write (fun _ => none) "out" [7, 8]) [7, 8] rfl (by decide) (by decide)⟩

/-- C6 counterexample: the claim says an HTTP `4xx` other than `429` is
fatal in the streaming path with no retry and no backoff sleep.  With
`max_retries = 1` and a server that always answers `404`, the streaming
path issues two GETs and sleeps once (`2^0` seconds) before failing. -/
theorem streaming_404_is_retried :
    (downloadSimple (fun _ => .response 404 []) 1 none false "out" (fun _ => none)).1.sleeps
        = [1]
    ∧ (downloadSimple (fun _ => .response 404 []) 1 none false "out" (fun _ => none)).1.gets
        = [none, some 0]
    ∧ (downloadSimple (fun _ => .response 404 []) 1 none false "out" (fun _ => none)).2
        = .failed (.httpStatus 404) := ⟨rfl, rfl, rfl⟩

/-- C6 (amended): a status outside `{200, 206, 429}` — in particular a
`4xx` other than `429` — makes the segment fetcher fail immediately and
fatally: one GET, no backoff sleep, no retry, and the job fails with
that status.  The streaming path, by contrast, treats such a status
(raised by `raise_for_status` as an `aiohttp.ClientError`) like a
transport error: it retries with backoff, one GET per attempt and one
sleep between attempts, and fails with that status only after
`max_retries` retries are exhausted. -/
theorem client_error_handling (oracle : Nat → GetResult) (max_retries base start : Nat)
    (stop : Int) (s : Nat) (ev : List StreamEvent)
    (oracle₂ : Nat → GetResult) (mr₂ : Nat) (size : Option Nat) (resume_supported : Bool)
    (out : String) (fs : FileSystem)
    (ho : oracle 0 = .response s ev) (hs4 : 400 ≤ s) (hs5 : s < 500) (hs429 : s ≠ 429)
    (hor : ∀ a, ∃ ev₂, oracle₂ a = .response s ev₂) (hfs : fs out = none) :
    ((downloadSegment oracle max_retries base start stop).2 = some (.httpStatus s)
      ∧ (downloadSegment oracle max_retries base start stop).1.gets = [(start, stop)]
      ∧ (downloadSegment oracle max_retries base start stop).1.sleeps = []
      ∧ (downloadSegment oracle max_retries base start stop).1.completed = false)
    ∧ ((downloadSimple oracle₂ mr₂ size resume_supported out fs).2
          = .failed (.httpStatus s)
      ∧ (downloadSimple oracle₂ mr₂ size resume_supported out fs).1.gets.length = mr₂ + 1
      ∧ (downloadSimple oracle₂ mr₂ size resume_supported out fs).1.sleeps.length = mr₂) := by
  constructor
  · have hrange : List.range (max_retries + 1) = 0 :: List.map Nat.succ (List.range max_retries) :=
      List.range_succ_eq_map max_retries
    have heq := segLoop_fatal oracle base start stop 0
      (List.map Nat.succ (List.range max_retries))
      { tempFile := none, downloaded := 0, trace := [], gets := [], sleeps := [],
        completed := false }
      s ev ho (by omega) (by omega) hs429
    unfold downloadSegment
    rw [hrange, heq]
    refine ⟨rfl, by simp, rfl, rfl⟩
  · rw [downloadSimple_no_file oracle₂ mr₂ size resume_supported out fs hfs]
    obtain ⟨h1, h2, h3⟩ := simpleLoop_all4xx oracle₂ out s hs4 hs429 hor
      (List.range (mr₂ + 1)) (by simp) _
    refine ⟨h1, ?_, ?_⟩
    · rw [h2]; simp
    · rw [h3]; simp

/-- C6 witness: segment fetcher at `404` for segment `[0,4]`, and the
streaming path with one retry against a server that always answers
`404`. -/
theorem client_error_handling_witness :
    ((fun _ => GetResult.response 404 []) 0 = GetResult.response 404 []
      ∧ 400 ≤ 404 ∧ 404 < 500 ∧ 404 ≠ 429
      ∧ (∀ a : Nat, ∃ ev₂, (fun _ => GetResult.response 404 []) a
          = GetResult.response 404 ev₂)
      ∧ ((fun _ => none) : FileSystem) "out" = none)
    ∧ ((downloadSegment (fun _ => .response 404 []) 2 0 0 4).2
          = some (.httpStatus 404)
      ∧ (downloadSegment (fun _ => .response 404 []) 2 0 0 4).1.gets = [(0, 4)]
      ∧ (downloadSegment (fun _ => .response 404 []) 2 0 0 4).1.sleeps = []
      ∧ (downloadSegment (fun _ => .response 404 []) 2 0 0 4).1.completed = false)
    ∧ ((downloadSimple (fun _ => .response 404 []) 1 none false "out" (fun _ => none)).2
          = .failed (.httpStatus 404)
      ∧ (downloadSimple (fun _ => .response 404 []) 1 none false "out"
          (fun _ => none)).1.gets.length = 1 + 1
      ∧ (downloadSimple (fun _ => .response 404 []) 1 none false "out"
          (fun _ => none)).1.sleeps.length = 1) :=
  ⟨⟨rfl, by omega, by omega, by omega, fun a => ⟨[], rfl⟩, rfl⟩,
    (client_error_handling (fun _ => .response 404 []) 2 0 0 4 404 []
      (fun _ => .response 404 []) 1 none false "out" (fun _ => none)
      rfl (by omega) (by omega) (by omega) (fun a => ⟨[], rfl⟩) rfl).1,
    (client_error_handling (fun _ => .response 404 []) 2 0 0 4 404 []
      (fun _ => .response 404 []) 1 none false "out" (fun _ => none)
      rfl (by omega) (by omega) (by omega) (fun a => ⟨[], rfl⟩) rfl).2⟩

/-- C7 counterexample: the claim says tracker updates never decrease
within a job.  Resuming a 3-byte file against a server that ignores the
`Range` header (answers `200`) makes the streaming path report `3` and
then reset to `0`: the update trace is `[3, 0]`, which is not
non-decreasing. -/
theorem tracker_update_decreases :
    (downloadSimple (fun _ => .response 200 []) 0 (some 10) true "out"
      (FileSystem.write (fun _ => none) "out" [1, 2, 3])).1.trace = [3, 0]
    ∧ ¬ List.Chain' (· ≤ ·)
        (downloadSimple (fun _ => .response 200 []) 0 (some 10) true "out"
          (FileSystem.write (fun _ => none) "out" [1, 2, 3])).1.trace := by
  refine ⟨rfl, ?_⟩
  rw [show (downloadSimple (fun _ => .response 200 []) 0 (some 10) true "out"
      (FileSystem.write (fun _ => none) "out" [1, 2, 3])).1.trace = [3, 0] from rfl]
  intro h
  rw [List.chain'_cons] at h
  exact absurd h.1 (by omega)

/-- C7 (amended): within a job the values passed to
`ProgressTracker.update` never decrease, except that the streaming path
resets the reported value to `0` when a pending ranged request is
answered with a status other than `206`: every adjacent pair of the
streaming trace either moves up or is a reset to `0`, and the segment
fetcher's trace is fully non-decreasing. -/
theorem tracker_monotone_or_reset (oracle : Nat → GetResult) (max_retries : Nat)
    (size : Option Nat) (resume_supported : Bool) (out : String) (fs : FileSystem)
    (oracle₂ : Nat → GetResult) (mr₂ base start : Nat) (stop : Int) :
    ((downloadSimple oracle max_retries size resume_supported out fs).1.trace.Chain'
      (fun a b => a ≤ b ∨ b = 0))
    ∧ ((downloadSegment oracle₂ mr₂ base start stop).1.trace.Chain' (· ≤ ·)) := by
  refine ⟨downloadSimple_traceOk oracle max_retries size resume_supported out fs, ?_⟩
  obtain ⟨_, hinv⟩ := segLoop_facts oracle₂ base start stop (List.range (mr₂ + 1))
    { tempFile := none, downloaded := 0, trace := [], gets := [], sleeps := [],
      completed := false }
  exact (hinv ⟨List.chain'_nil, Or.inl rfl⟩).1

/-- C8 counterexample: the claim says a fully-present file makes a new
download a no-op with no content GET, regardless of strategy.  For a
4-byte file with chunk size 2 and two threads the engine selects the
segmented strategy, which never looks at the existing output file: it
issues two ranged GETs and re-transfers all 4 bytes. -/
theorem completed_file_retransferred_when_segmented :
    chooseSegmented ⟨some 4, true⟩ 2 2 = true
    ∧ (FileSystem.write (fun _ => none) "out" [1, 2, 3, 4]) "out" = some [1, 2, 3, 4]
    ∧ (download (fun _ _ => .response 206 [.chunk [0, 0]]) 3 2 ⟨some 4, true⟩ 2 "out"
        (FileSystem.write (fun _ => none) "out" [1, 2, 3, 4])).run.getCount = 2
    ∧ (download (fun _ _ => .response 206 [.chunk [0, 0]]) 3 2 ⟨some 4, true⟩ 2 "out"
        (FileSystem.write (fun _ => none) "out" [1, 2, 3, 4])).job.downloaded_size = 4 :=
  ⟨rfl, rfl, rfl, rfl⟩

/-- C8 (amended): re-running a completed download is a no-op only when
the engine selects the streaming strategy and the server supports
resume: then a local file at least as large as the known total makes
the engine return `Completed` with no GET issued, the file system
untouched and `downloaded_size` the local size.  When the segmented
strategy is selected the existing output file is ignored: at least one
content GET is always issued. -/
theorem completed_download_noop (oracle : Nat → Nat → GetResult)
    (max_retries chunk_size : Nat) (info : DownloadInfo) (num_threads : Nat)
    (out : String) (fs : FileSystem) (c : List Nat) :
    (chooseSegmented info chunk_size num_threads = false →
      info.resume_supported = true →
      fs out = some c →
      optTruthy info.size = true →
      info.size.getD 0 ≤ c.length →
      0 < c.length →
      (download oracle max_retries chunk_size info num_threads out fs).job.status
          = .completed
      ∧ (download oracle max_retries chunk_size info num_threads out fs).raised = none
      ∧ (download oracle max_retries chunk_size info num_threads out fs).run.getCount = 0
      ∧ (download oracle max_retries chunk_size info num_threads out fs).fs = fs
      ∧ (download oracle max_retries chunk_size info num_threads
          out fs).job.downloaded_size = c.length)
    ∧ (chooseSegmented info chunk_size num_threads = true →
      (download oracle max_retries chunk_size info num_threads out fs).run.getCount ≠ 0) := by
  constructor
  · intro h1 h2 h3 h4 h5 h6
    have hds : downloadSimple (oracle 0) max_retries info.size info.resume_supported out fs
        = ({ fs := fs, startByte := c.length, rangeHeader := none,
             downloaded := c.length, trace := [], gets := [], sleeps := [] },
           .alreadyComplete) := by
      rw [h2, downloadSimple_resume_eq (oracle 0) max_retries info.size out fs c h3,
        if_pos h6, if_pos (by simp [h4, h5])]
    refine ⟨?_, ?_, ?_, ?_, ?_⟩ <;> simp [download, h1, hds, PathRun.getCount]
  · intro h1
    obtain ⟨s, hsz⟩ : ∃ s, info.size = some s := by
      cases h : info.size with
      | none => rw [chooseSegmented, h] at h1; cases h1
      | some s => exact ⟨s, rfl⟩
    obtain ⟨seg, rest, hsegs⟩ : ∃ seg rest,
        createSegments s num_threads = seg :: rest := by
      have hth : 1 < num_threads := by
        rw [chooseSegmented, hsz] at h1
        simp only [Bool.and_eq_true, decide_eq_true_eq] at h1
        exact h1.2
      cases h : createSegments s num_threads with
      | nil =>
          have hlen : (createSegments s num_threads).length = num_threads := by
            simp [createSegments_eq_map]
          rw [h] at hlen
          simp at hlen
          omega
      | cons a l => exact ⟨a, l, rfl⟩
    obtain ⟨st0, e0, hd0⟩ : ∃ q e,
        downloadSegment (oracle seg.id) max_retries 0 seg.start.toNat seg.stop
          = (q, e) := ⟨_, _, rfl⟩
    have hne : st0.gets ≠ [] := by
      have h := downloadSegment_gets_ne (oracle seg.id) max_retries 0 seg.start.toNat
        seg.stop
      rwa [hd0] at h
    have hlen0 : st0.gets.length ≠ 0 := by
      simpa [List.length_eq_zero] using hne
    cases e0 with
    | none =>
        obtain ⟨L, e2, hL⟩ : ∃ L e2,
            runSegments oracle max_retries st0.downloaded rest = (L, e2) :=
          ⟨_, _, rfl⟩
        have hrs : runSegments oracle max_retries 0 (seg :: rest) = (st0 :: L, e2) := by
          simp [runSegments, hd0, hL]
        cases e2 with
        | none =>
            have hDS : downloadSegmented oracle max_retries info.size num_threads out fs
                = (cleanupSegments (st0 :: L), mergeSegments fs out (st0 :: L), none) := by
              simp [downloadSegmented, hsz, hsegs, hrs]
            simp [download, h1, hDS, PathRun.getCount, cleanupSegments]
            exact fun h => absurd h hne
        | some c2 =>
            have hDS : downloadSegmented oracle max_retries info.size num_threads out fs
                = (cleanupSegments (st0 :: L), fs, some c2) := by
              simp [downloadSegmented, hsz, hsegs, hrs]
            simp [download, h1, hDS, PathRun.getCount, cleanupSegments]
            exact fun h => absurd h hne
    | some c0 =>
        have hrs : runSegments oracle max_retries 0 (seg :: rest) = ([st0], some c0) := by
          simp [runSegments, hd0]
        have hDS : downloadSegmented oracle max_retries info.size num_threads out fs
            = (cleanupSegments [st0], fs, some c0) := by
          simp [downloadSegmented, hsz, hsegs, hrs]
        simp [download, h1, hDS, PathRun.getCount, cleanupSegments]
        exact hne

/-- C8 witness: part one at a complete 3-byte file with streaming
selected; part two at the segmented 4-byte configuration. -/
theorem completed_download_noop_witness :
    (chooseSegmented ⟨some 3, true⟩ 5 4 = false
      ∧ (FileSystem.write (fun _ => none) "out" [9, 9, 9]) "out" = some [9, 9, 9]
      ∧ ((download (fun _ _ => .failure) 2 5 ⟨some 3, true⟩ 4 "out"
          (FileSystem.write (fun _ => none) "out" [9, 9, 9])).job.status = .completed
        ∧ (download (fun _ _ => .failure) 2 5 ⟨some 3, true⟩ 4 "out"
            (FileSystem.write (fun _ => none) "out" [9, 9, 9])).raised = none
        ∧ (download (fun _ _ => .failure) 2 5 ⟨some 3, true⟩ 4 "out"
            (FileSystem.write (fun _ => none) "out" [9, 9, 9])).run.getCount = 0
        ∧ (download (fun _ _ => .failure) 2 5 ⟨some 3, true⟩ 4 "out"
            (FileSystem.write (fun _ => none) "out" [9, 9, 9])).fs
            = FileSystem.write (fun _ => none) "out" [9, 9, 9]
        ∧ (download (fun _ _ => .failure) 2 5 ⟨some 3, true⟩ 4 "out"
            (FileSystem.write (fun _ => none) "out" [9, 9, 9])).job.downloaded_size
            = ([9, 9, 9] : List Nat).length))
    ∧ (chooseSegmented ⟨some 4, true⟩ 2 2 = true
      ∧ (download (fun _ _ => .response 206 [.chunk [0, 0]]) 3 2 ⟨some 4, true⟩ 2 "out"
          (FileSystem.write (fun _ => none) "out" [1, 2, 3, 4])).run.getCount ≠ 0) :=
  ⟨⟨rfl, rfl,
    (completed_download_noop (fun _ _ => .failure) 2 5 ⟨some 3, true⟩ 4 "out"
      (FileSystem.write (fun _ => none) "out" [9, 9, 9]) [9, 9, 9]).1
      rfl rfl rfl (by decide) (by decide) (by decide)⟩,
   rfl,
    (completed_download_noop (fun _ _ => .response 206 [.chunk [0, 0]]) 3 2 ⟨some 4, true⟩
      2 "out" (FileSystem.write (fun _ => none) "out" [1, 2, 3, 4]) []).2 rfl⟩

/-- C9 counterexample: the claim says that on failure the caller still
receives the final `DownloadJob` as the result.  On a failing run the
engine sets the job to `FAILED` with the error recorded, but then
re-raises the exception: the caller receives the error, not the job. -/
theorem failure_raises_instead_of_returning :
    callerView (download (fun _ _ => .failure) 0 4 ⟨none, false⟩ 1 "out" (fun _ => none))
        = .error .transport
    ∧ (download (fun _ _ => .failure) 0 4 ⟨none, false⟩ 1 "out" (fun _ => none)).job.status
        = .failed
    ∧ (download (fun _ _ => .failure) 0 4 ⟨none, false⟩ 1 "out"
        (fun _ => none)).job.error_message = some .transport :=
  ⟨rfl, rfl, rfl⟩

/-- C9 (amended): every engine invocation produces a final job value
whose `error_message` equals the exception raised (none on success) and
whose status is `Completed` exactly when nothing was raised; but the job
value reaches the caller as the result only on success — on failure the
exception is re-raised and the caller receives it instead of the job. -/
theorem download_final_job (oracle : Nat → Nat → GetResult) (max_retries chunk_size : Nat)
    (info : DownloadInfo) (num_threads : Nat) (out : String) (fs : FileSystem) :
    ((download oracle max_retries chunk_size info num_threads out fs).job.error_message
      = (download oracle max_retries chunk_size info num_threads out fs).raised)
    ∧ ((download oracle max_retries chunk_size info num_threads out fs).job.status
      = if (download oracle max_retries chunk_size info num_threads out fs).raised.isSome
        then .failed else .completed)
    ∧ (isDelivered (callerView (download oracle max_retries chunk_size info num_threads out fs))
      = (download oracle max_retries chunk_size info num_threads out fs).raised.isNone) := by
  cases hseg : chooseSegmented info chunk_size num_threads with
  | true =>
      obtain ⟨sts, fs1, e, hds⟩ : ∃ a b c,
          downloadSegmented oracle max_retries info.size num_threads out fs
            = (a, b, c) := ⟨_, _, _, rfl⟩
      cases e with
      | none => simp [download, hseg, hds, callerView, isDelivered]
      | some c => simp [download, hseg, hds, callerView, isDelivered]
  | false =>
      obtain ⟨st, res, hds⟩ : ∃ a b,
          downloadSimple (oracle 0) max_retries info.size info.resume_supported out fs
            = (a, b) := ⟨_, _, rfl⟩
      cases res with
      | alreadyComplete => simp [download, hseg, hds, callerView, isDelivered]
      | ok => simp [download, hseg, hds, callerView, isDelivered]
      | failed c => simp [download, hseg, hds, callerView, isDelivered]

/-- C10: the streaming path stages nothing: body chunks go directly to
the output path (no other path is ever written), the partial file is
never deleted — also not when the run fails after exhausting its
retries — and a later call over the resulting file system with resume
support sends `Range: bytes=N-` for the current size `N` and seeds the
tracker with `N`. -/
theorem streaming_no_staging (oracle : Nat → GetResult) (max_retries : Nat)
    (size : Option Nat) (resume_supported : Bool) (out : String) (fs : FileSystem) :
    (∀ p, p ≠ out →
      (downloadSimple oracle max_retries size resume_supported out fs).1.fs p = fs p)
    ∧ ((downloadSimple oracle max_retries size resume_supported out fs).1.fs out = none →
        fs out = none)
    ∧ (∀ (cause : FailCause) (c : List Nat) (oracle₂ : Nat → GetResult) (mr₂ : Nat),
        (downloadSimple oracle max_retries size resume_supported out fs).2 = .failed cause →
        (downloadSimple oracle max_retries size resume_supported out fs).1.fs out = some c →
        0 < c.length →
        ¬(optTruthy size = true ∧ size.getD 0 ≤ c.length) →
        resumeHead oracle₂ mr₂ size out
          (downloadSimple oracle max_retries size resume_supported out fs).1.fs c.length) := by
  obtain ⟨hfr, hnd⟩ :=
    downloadSimple_fs_facts oracle max_retries size resume_supported out fs
  exact ⟨hfr, hnd, fun cause c oracle₂ mr₂ _ hfs hN hnc =>
    downloadSimple_resumeHead oracle₂ mr₂ size out _ c hfs hN hnc⟩

/-- C10 witness: a run that fails mid-body after writing two bytes
directly to the output path; the file is left in place and a later call
resumes from byte 2. -/
theorem streaming_no_staging_witness :
    ("other" ≠ "out"
      ∧ (downloadSimple (fun _ => .response 200 [.chunk [1, 2], .netErr]) 0 none false "out"
          (fun _ => none)).1.fs "other" = (fun _ => none : FileSystem) "other")
    ∧ ((downloadSimple (fun _ => .response 200 [.chunk [1, 2], .netErr]) 0 none false "out"
          (fun _ => none)).2 = .failed .transport
      ∧ (downloadSimple (fun _ => .response 200 [.chunk [1, 2], .netErr]) 0 none false "out"
          (fun _ => none)).1.fs "out" = some [1, 2]
      ∧ 0 < ([1, 2] : List Nat).length
      ∧ ¬(optTruthy none = true ∧ (none : Option Nat).getD 0 ≤ ([1, 2] : List Nat).length)
      ∧ resumeHead (fun _ => .failure) 0 none "out"
          (downloadSimple (fun _ => .response 200 [.chunk [1, 2], .netErr]) 0 none false
            "out" (fun _ => none)).1.fs ([1, 2] : List Nat).length) :=
  ⟨⟨by decide,
    (streaming_no_staging (fun _ => .response 200 [.chunk [1, 2], .netErr]) 0 none false
      "out" (fun _ => none)).1 "other" (by decide)⟩,
    rfl, rfl, by decide, by decide,
    (streaming_no_staging (fun _ => .response 200 [.chunk [1, 2], .netErr]) 0 none false
      "out" (fun _ => none)).2.2 .transport [1, 2] (fun _ => .failure) 0 rfl rfl
      (by decide) (by decide)⟩

end Macdl
